import Mathlib

/-!
Verification of the update path of GTMatrix (`GTMatrix_Update.c`).

A distributed dense matrix is partitioned into contiguous row/column blocks
across a process grid; each process owns one rectangular tile.  This file
embeds `GTM_updateBlockToProcess`, `GTM_updateBlock`, the batch epoch
functions (`GTM_startBatchUpdate`, `GTM_execBatchUpdate`,
`GTM_stopBatchUpdate`) and their wrappers as pure Lean functions over an
explicit matrix-handle state, and proves the geometric, state-machine and
error-handling properties of that code.

C `int` values are embedded as `Int`; C arrays indexed by nonnegative ints
are embedded as functions `Nat → Int`; one-sided MPI operations are recorded
as an explicit event trace.
-/

/-- Modelled from the spec: the result-code taxonomy of `GTMatrix_Retval.h`
(not part of the sources here): success, absent handle (`NullHandle`),
invalid rectangle (`InvalidBlock`), the three already-batched codes and the
two no-batched codes. -/
inductive GTMret where
  | GTM_SUCCESS
  | GTM_NULL_PTR
  | GTM_INVALID_BLOCK
  | GTM_IN_BATCHED_GET
  | GTM_IN_BATCHED_PUT
  | GTM_IN_BATCHED_ACC
  | GTM_NO_BATCHED_PUT
  | GTM_NO_BATCHED_ACC
  deriving DecidableEq, Repr

export GTMret (GTM_SUCCESS GTM_NULL_PTR GTM_INVALID_BLOCK GTM_IN_BATCHED_GET
  GTM_IN_BATCHED_PUT GTM_IN_BATCHED_ACC GTM_NO_BATCHED_PUT GTM_NO_BATCHED_ACC)

/-- The two combine operators supported by the update path
(`MPI_REPLACE` = put, `MPI_SUM` = accumulate). -/
inductive MPIOp where
  | MPI_REPLACE
  | MPI_SUM
  deriving DecidableEq, Repr

/-- The three access modes of `GTMatrix_Typedef.h` used by `GTM_updateBlock`. -/
inductive AccessMode where
  | BLOCKING_ACCESS
  | NONBLOCKING_ACCESS
  | BATCH_ACCESS
  deriving DecidableEq, Repr

/-- The transfer descriptor choice made by `GTM_updateBlockToProcess`
(lines 52-84).  `cachedNoStride idx`: source uses the cached no-stride
descriptor `sb_nostride[idx]`, destination the cached `sb_stride[idx]`.
`cachedBoth idx`: the cached `sb_stride[idx]` descriptor is reused for both
sides.  `cachedDstOneOffSrc idx`: destination uses `sb_stride[idx]`, the
source uses a one-off vector descriptor committed before and freed
immediately after the call.  `oneOffBoth`: both sides use one-off vector
descriptors, both freed immediately after the call. -/
inductive TransferPlan where
  | cachedNoStride (idx : Int)
  | cachedBoth (idx : Int)
  | cachedDstOneOffSrc (idx : Int)
  | oneOffBoth
  deriving DecidableEq, Repr

/-- One queued update request, as stored by `GTM_pushToReqVector`
(operator, sub-rectangle, source pointer, source leading dimension).
Pointers are embedded as integer addresses. -/
structure GTMReq where
  op : MPIOp
  row_start : Int
  row_num : Int
  col_start : Int
  col_num : Int
  src_buf : Int
  src_buf_ld : Int
  deriving DecidableEq, Repr

/-- The matrix handle (`GTMatrix_Typedef.h` struct) restricted to the fields
the update path reads or writes.  Partition tables `r_displs` / `c_displs`
are embedded as total functions `Nat → Int` (C arrays of length
`r_blocks+1` / `c_blocks+1`).  `sb_dim_max` is the small-block bound
`MPI_DT_SB_DIM_MAX` (a header constant, carried here as a field).
`held` records which destinations currently have an epoch (lock) held open
by the non-blocking path. -/
structure GTMatrix where
  nrows : Int
  ncols : Int
  r_blocks : Nat
  c_blocks : Nat
  r_displs : Nat → Int
  c_displs : Nat → Int
  ld_local : Int
  unit_size : Int
  sb_dim_max : Int
  my_rank : Nat
  comm_size : Nat
  max_nb_acc : Int
  in_batch_get : Bool
  in_batch_put : Bool
  in_batch_acc : Bool
  req_vec : Nat → List GTMReq
  nb_op_proc_cnt : Nat → Int
  nb_op_cnt : Int
  held : Nat → Bool

/-- Observable one-sided / synchronization actions taken by the update path:
epoch acquire (`MPI_Win_lock`), epoch release (`MPI_Win_unlock`), an issued
`MPI_Accumulate` (with its destination, operator, destination offset, chosen
transfer descriptors, shape, source pointer and source stride), and the full
flush of outstanding non-blocking operations (`GTM_waitNB`). -/
inductive Event where
  | winLock (rank : Nat)
  | winUnlock (rank : Nat)
  | accum (rank : Nat) (op : MPIOp) (dst_pos : Int) (plan : TransferPlan)
      (row_num col_num src_buf src_buf_ld : Int)
  | flushNB
  deriving DecidableEq, Repr

/-- The destination rank an event concerns (`none` for the global flush). -/
def Event.rank? : Event → Option Nat
  | .winLock r => some r
  | .winUnlock r => some r
  | .accum r _ _ _ _ _ _ _ => some r
  | .flushNB => none

/-- The integer range `[s, e]` as a list, in increasing order: the iteration
space of a C loop `for (i = s; i <= e; i++)`. -/
def intRange (s e : Int) : List Int :=
  (List.range (e + 1 - s).toNat).map (fun i : Nat => s + (i : Int))

/-- The block-search loops of `GTM_updateBlock` (lines 119-132): scan block
index `i` from `0` to `n-1` and record the last `i` whose half-open interval
`[d i, d (i+1))` contains `x`; `init` is the initial value of the result
variable (`0` for the start block, `-1` for the end block). -/
def findBlk (d : Nat → Int) (n : Nat) (x : Int) (init : Int) : Int :=
  (List.range n).foldl (fun s i => if d i ≤ x ∧ x < d (i + 1) then (i : Int) else s) init

/-- Modelled from the spec: `getRectIntersection` (`utils.c`, not among the
sources here) intersects the destination tile rectangle with the requested
rectangle (all bounds inclusive); the flag reports whether the intersection
is non-empty. -/
def getRectIntersection (dst_r_s dst_r_e dst_c_s dst_c_e
    row_start row_end col_start col_end : Int) : Bool × Int × Int × Int × Int :=
  let r_s := max dst_r_s row_start
  let r_e := min dst_r_e row_end
  let c_s := max dst_c_s col_start
  let c_e := min dst_c_e col_end
  (decide (r_s ≤ r_e) && decide (c_s ≤ c_e), r_s, r_e, c_s, c_e)

/-- One destination sub-update resolved by the double loop of
`GTM_updateBlock` (lines 136-156): the block-row/block-column indices, the
destination rank `blk_r * c_blocks + blk_c`, the intersected sub-rectangle
(inclusive bounds), and the byte offset of that sub-rectangle's origin
inside the caller's source buffer. -/
structure SubUpd where
  blk_r : Int
  blk_c : Int
  dst_rank : Int
  r_s : Int
  r_e : Int
  c_s : Int
  c_e : Int
  ptr_off : Int
  deriving DecidableEq, Repr

/-- The geometry stage of `GTM_updateBlock` (lines 116-156): locate the
start/end block rows and columns of the requested rectangle, then enumerate
every (block-row, block-column) pair in between, intersecting each
destination's tile with the request. -/
def updatePairs (g : GTMatrix) (row_start row_num col_start col_num src_buf_ld : Int) :
    List SubUpd :=
  let row_end := row_start + row_num - 1
  let col_end := col_start + col_num - 1
  let s_blk_r := findBlk g.r_displs g.r_blocks row_start 0
  let e_blk_r := findBlk g.r_displs g.r_blocks row_end (-1)
  let s_blk_c := findBlk g.c_displs g.c_blocks col_start 0
  let e_blk_c := findBlk g.c_displs g.c_blocks col_end (-1)
  (intRange s_blk_r e_blk_r).flatMap (fun blk_r =>
    (intRange s_blk_c e_blk_c).map (fun blk_c =>
      let dst_r_s := g.r_displs blk_r.toNat
      let dst_r_e := g.r_displs (blk_r.toNat + 1) - 1
      let dst_c_s := g.c_displs blk_c.toNat
      let dst_c_e := g.c_displs (blk_c.toNat + 1) - 1
      let q := getRectIntersection dst_r_s dst_r_e dst_c_s dst_c_e
        row_start row_end col_start col_end
      let blk_r_s := q.2.1
      let blk_c_s := q.2.2.2.1
      { blk_r := blk_r, blk_c := blk_c,
        dst_rank := blk_r * (g.c_blocks : Int) + blk_c,
        r_s := blk_r_s, r_e := q.2.2.1, c_s := blk_c_s, c_e := q.2.2.2.2,
        ptr_off := ((blk_r_s - row_start) * src_buf_ld + (blk_c_s - col_start))
          * g.unit_size }))

/-- The destination-offset computation of `GTM_updateBlockToProcess`
(lines 49-50): `(row_start - dst_row_start) * dst_blk_ld +
(col_start - dst_col_start)`. -/
def dstPos (dst_blk_ld row_start dst_row_start col_start dst_col_start : Int) : Int :=
  (row_start - dst_row_start) * dst_blk_ld + (col_start - dst_col_start)

/-- The transfer-descriptor selection of `GTM_updateBlockToProcess`
(lines 52-84): inside the small-block regime (`row_num ≤ B` and
`col_num ≤ B`) the cached descriptor at index
`(row_num - 1) * B + (col_num - 1)` is used for the destination, with the
source side depending on the source stride; outside it, one-off descriptors
are built for both sides. -/
def choosePlan (B row_num col_num src_buf_ld ld_local : Int) : TransferPlan :=
  if row_num ≤ B ∧ col_num ≤ B then
    let block_dt_id := (row_num - 1) * B + (col_num - 1)
    if col_num = src_buf_ld then .cachedNoStride block_dt_id
    else if ld_local = src_buf_ld then .cachedBoth block_dt_id
    else .cachedDstOneOffSrc block_dt_id
  else .oneOffBoth

/-- `GTM_updateBlockToProcess` (lines 25-86): sanity-check the sub-rectangle
against the destination tile, compute the destination offset, choose the
transfer descriptors and issue one `MPI_Accumulate`.  Returns the result
code and the issued events (none when the sanity check fails). -/
def GTM_updateBlockToProcess (g : GTMatrix) (dst_rank : Nat) (op : MPIOp)
    (row_start row_num col_start col_num src_buf src_buf_ld : Int) :
    GTMret × List Event :=
  let row_end := row_start + row_num
  let col_end := col_start + col_num
  let dst_rowblk := dst_rank / g.c_blocks
  let dst_colblk := dst_rank % g.c_blocks
  let dst_blk_ld := g.ld_local
  let dst_row_start := g.r_displs dst_rowblk
  let dst_col_start := g.c_displs dst_colblk
  let dst_row_end := g.r_displs (dst_rowblk + 1)
  let dst_col_end := g.c_displs (dst_colblk + 1)
  if row_start < dst_row_start ∨ col_start < dst_col_start ∨
     row_end > dst_row_end ∨ col_end > dst_col_end ∨
     row_num * col_num = 0 then (GTM_INVALID_BLOCK, [])
  else
    (GTM_SUCCESS,
     [Event.accum dst_rank op (dstPos dst_blk_ld row_start dst_row_start col_start dst_col_start)
        (choosePlan g.sb_dim_max row_num col_num src_buf_ld g.ld_local)
        row_num col_num src_buf src_buf_ld])

/-- Modelled from the spec: `GTM_pushToReqVector` (request-queue storage, an
external collaborator) appends one fully resolved request to the given
destination's queue and reports success. -/
def GTM_pushToReqVector (st : GTMatrix) (dst_rank : Nat) (q : GTMReq) :
    GTMret × GTMatrix :=
  (GTM_SUCCESS,
   { st with req_vec := Function.update st.req_vec dst_rank (st.req_vec dst_rank ++ [q]) })

/-- Modelled from the spec: `GTM_resetReqVector` (request-queue storage, an
external collaborator) empties the given destination's queue. -/
def GTM_resetReqVector (st : GTMatrix) (dst_rank : Nat) : GTMatrix :=
  { st with req_vec := Function.update st.req_vec dst_rank [] }

/-- Modelled from the spec: `GTM_waitNB` (`GTMatrix_Other.c`, not among the
sources here) waits for completion of all outstanding non-blocking
operations, releases every held epoch and resets every per-destination
counter and the global counter to zero. -/
def GTM_waitNB (st : GTMatrix) : GTMatrix × List Event :=
  ({ st with nb_op_proc_cnt := fun _ => 0, nb_op_cnt := 0, held := fun _ => false },
   [Event.flushNB])

/-- The `BLOCKING_ACCESS` branch of `GTM_updateBlock` (lines 160-168): lock
the destination's epoch, issue the sub-update, unlock. -/
def blockingUpdateStep (st : GTMatrix) (dst_rank : Nat) (op : MPIOp)
    (row_start row_num col_start col_num src_buf src_buf_ld : Int) :
    GTMret × GTMatrix × List Event :=
  let r := GTM_updateBlockToProcess st dst_rank op row_start row_num
    col_start col_num src_buf src_buf_ld
  (r.1, st, Event.winLock dst_rank :: r.2 ++ [Event.winUnlock dst_rank])

/-- The `NONBLOCKING_ACCESS` branch of `GTM_updateBlock` (lines 170-183):
lock the destination's epoch only if its outstanding counter is zero, issue
the sub-update without unlocking, bump the per-destination and global
counters, and force the full flush `GTM_waitNB` once the global counter
reaches the configured maximum. -/
def nbUpdateStep (st : GTMatrix) (dst_rank : Nat) (op : MPIOp)
    (row_start row_num col_start col_num src_buf src_buf_ld : Int) :
    GTMret × GTMatrix × List Event :=
  let lockEvs := if st.nb_op_proc_cnt dst_rank = 0 then [Event.winLock dst_rank] else []
  let st0 := if st.nb_op_proc_cnt dst_rank = 0 then
    { st with held := Function.update st.held dst_rank true } else st
  let r := GTM_updateBlockToProcess st0 dst_rank op row_start row_num
    col_start col_num src_buf src_buf_ld
  let st1 := { st0 with
    nb_op_proc_cnt := Function.update st0.nb_op_proc_cnt dst_rank
      (st0.nb_op_proc_cnt dst_rank + 1),
    nb_op_cnt := st0.nb_op_cnt + 1 }
  if st1.nb_op_cnt ≥ st1.max_nb_acc then
    let w := GTM_waitNB st1
    (r.1, w.1, lockEvs ++ r.2 ++ w.2)
  else
    (r.1, st1, lockEvs ++ r.2)

/-- The `BATCH_ACCESS` branch of `GTM_updateBlock` (lines 185-192): append
the resolved sub-update to the destination's request queue; no one-sided
operation is issued. -/
def batchUpdateStep (st : GTMatrix) (dst_rank : Nat) (op : MPIOp)
    (row_start row_num col_start col_num src_buf src_buf_ld : Int) :
    GTMret × GTMatrix × List Event :=
  let r := GTM_pushToReqVector st dst_rank
    { op := op, row_start := row_start, row_num := row_num,
      col_start := col_start, col_num := col_num,
      src_buf := src_buf, src_buf_ld := src_buf_ld }
  (r.1, r.2, [])

/-- Dispatch of one destination sub-update under the given access mode
(the three `if (access_mode == ...)` blocks of `GTM_updateBlock`). -/
def processSubUpd (mode : AccessMode) (st : GTMatrix) (op : MPIOp) (src_buf src_buf_ld : Int)
    (u : SubUpd) : GTMret × GTMatrix × List Event :=
  let blk_r_num := u.r_e - u.r_s + 1
  let blk_c_num := u.c_e - u.c_s + 1
  let blk_ptr := src_buf + u.ptr_off
  match mode with
  | .BLOCKING_ACCESS =>
      blockingUpdateStep st u.dst_rank.toNat op u.r_s blk_r_num u.c_s blk_c_num blk_ptr src_buf_ld
  | .NONBLOCKING_ACCESS =>
      nbUpdateStep st u.dst_rank.toNat op u.r_s blk_r_num u.c_s blk_c_num blk_ptr src_buf_ld
  | .BATCH_ACCESS =>
      batchUpdateStep st u.dst_rank.toNat op u.r_s blk_r_num u.c_s blk_c_num blk_ptr src_buf_ld

/-- The double update loop of `GTM_updateBlock` (lines 136-196) run over the
resolved sub-updates, with the early `return ret` on the first failing
sub-update. -/
def runSubUpds (mode : AccessMode) (op : MPIOp) (src_buf src_buf_ld : Int) :
    GTMatrix → List SubUpd → GTMret × GTMatrix × List Event
  | st, [] => (GTM_SUCCESS, st, [])
  | st, u :: rest =>
      let r := processSubUpd mode st op src_buf src_buf_ld u
      if r.1 = GTM_SUCCESS then
        let r2 := runSubUpds mode op src_buf src_buf_ld r.2.1 rest
        (r2.1, r2.2.1, r.2.2 ++ r2.2.2)
      else r

/-- `GTM_updateBlock` (lines 100-198) on a non-null handle: validate the
requested rectangle, resolve the destination sub-updates, and process each
under the access mode. -/
def GTM_updateBlockG (st : GTMatrix) (op : MPIOp)
    (row_start row_num col_start col_num src_buf src_buf_ld : Int)
    (access_mode : AccessMode) : GTMret × GTMatrix × List Event :=
  if row_start < 0 ∨ col_start < 0 ∨
     row_start + row_num > st.nrows ∨ col_start + col_num > st.ncols ∨
     row_num * col_num = 0 then (GTM_INVALID_BLOCK, st, [])
  else
    runSubUpds access_mode op src_buf src_buf_ld st
      (updatePairs st row_start row_num col_start col_num src_buf_ld)

/-- `GTM_updateBlock` including the null-handle check (line 108); an absent
handle is `none`. -/
def GTM_updateBlock (gtm : Option GTMatrix) (op : MPIOp)
    (row_start row_num col_start col_num src_buf src_buf_ld : Int)
    (access_mode : AccessMode) : GTMret × Option GTMatrix × List Event :=
  match gtm with
  | none => (GTM_NULL_PTR, none, [])
  | some st =>
      let r := GTM_updateBlockG st op row_start row_num col_start col_num
        src_buf src_buf_ld access_mode
      (r.1, some r.2.1, r.2.2)

/-- `GTM_addPutBlockRequest` (lines 310-319): batched put. -/
def GTM_addPutBlockRequest (gtm : Option GTMatrix)
    (row_start row_num col_start col_num src_buf src_buf_ld : Int) :
    GTMret × Option GTMatrix × List Event :=
  match gtm with
  | none => (GTM_NULL_PTR, none, [])
  | some _ => GTM_updateBlock gtm .MPI_REPLACE row_start row_num col_start col_num
      src_buf src_buf_ld .BATCH_ACCESS

/-- `GTM_addAccBlockRequest` (lines 320-329): batched accumulate. -/
def GTM_addAccBlockRequest (gtm : Option GTMatrix)
    (row_start row_num col_start col_num src_buf src_buf_ld : Int) :
    GTMret × Option GTMatrix × List Event :=
  match gtm with
  | none => (GTM_NULL_PTR, none, [])
  | some _ => GTM_updateBlock gtm .MPI_SUM row_start row_num col_start col_num
      src_buf src_buf_ld .BATCH_ACCESS

/-- `GTM_startBatchUpdate` (lines 201-213): refuse if any batch epoch is
already active; otherwise clear every destination's queue and set the
put-active and accumulate-active flags together. -/
def GTM_startBatchUpdate (gtm : Option GTMatrix) : GTMret × Option GTMatrix :=
  match gtm with
  | none => (GTM_NULL_PTR, none)
  | some st =>
      if st.in_batch_get then (GTM_IN_BATCHED_GET, some st)
      else if st.in_batch_put then (GTM_IN_BATCHED_PUT, some st)
      else if st.in_batch_acc then (GTM_IN_BATCHED_ACC, some st)
      else
        (GTM_SUCCESS, some { st with
          req_vec := fun i => if i < st.comm_size then [] else st.req_vec i,
          in_batch_put := true, in_batch_acc := true })

/-- The replay of one destination's queued requests inside
`GTM_execBatchUpdate` (lines 229-243): dispatch each request in enqueue
order through `GTM_updateBlockToProcess`, stopping at the first failure. -/
def replayReqs (g : GTMatrix) (dst_rank : Nat) : List GTMReq → GTMret × List Event
  | [] => (GTM_SUCCESS, [])
  | q :: rest =>
      let r := GTM_updateBlockToProcess g dst_rank q.op q.row_start q.row_num
        q.col_start q.col_num q.src_buf q.src_buf_ld
      if r.1 = GTM_SUCCESS then
        let r2 := replayReqs g dst_rank rest
        (r2.1, r.2 ++ r2.2)
      else r

/-- The destination loop of `GTM_execBatchUpdate` (lines 221-248) over an
explicit list of destination ranks: for each rank, if its queue is
non-empty, lock, replay (returning immediately, without unlock or queue
reset, on the first failure), unlock; then reset the queue. -/
def execRanks : GTMatrix → List Nat → GTMret × GTMatrix × List Event
  | st, [] => (GTM_SUCCESS, st, [])
  | st, dst_rank :: rest =>
      if (st.req_vec dst_rank).length > 0 then
        let r := replayReqs st dst_rank (st.req_vec dst_rank)
        if r.1 = GTM_SUCCESS then
          let st1 := GTM_resetReqVector st dst_rank
          let r2 := execRanks st1 rest
          (r2.1, r2.2.1,
           Event.winLock dst_rank :: r.2 ++ Event.winUnlock dst_rank :: r2.2.2)
        else (r.1, st, Event.winLock dst_rank :: r.2)
      else
        execRanks (GTM_resetReqVector st dst_rank) rest

/-- The round-robin destination order of `GTM_execBatchUpdate` (line 221):
`my_rank, my_rank+1, …` wrapping around the group. -/
def roundRobinRanks (my_rank comm_size : Nat) : List Nat :=
  (List.range comm_size).map (fun i => (my_rank + i) % comm_size)

/-- `GTM_execBatchUpdate` (lines 216-250): require an active batch epoch,
then process every destination in round-robin order starting at the
caller's own rank. -/
def GTM_execBatchUpdate (st : GTMatrix) : GTMret × GTMatrix × List Event :=
  if st.in_batch_put = false then (GTM_NO_BATCHED_PUT, st, [])
  else if st.in_batch_acc = false then (GTM_NO_BATCHED_ACC, st, [])
  else execRanks st (roundRobinRanks st.my_rank st.comm_size)

/-- `GTM_stopBatchUpdate` (lines 253-261): require an active batch epoch,
then clear both flags; queues are not flushed and not touched. -/
def GTM_stopBatchUpdate (gtm : Option GTMatrix) : GTMret × Option GTMatrix :=
  match gtm with
  | none => (GTM_NULL_PTR, none)
  | some st =>
      if st.in_batch_put = false then (GTM_NO_BATCHED_PUT, some st)
      else if st.in_batch_acc = false then (GTM_NO_BATCHED_ACC, some st)
      else (GTM_SUCCESS, some { st with in_batch_put := false, in_batch_acc := false })

/-- The one `MPI_Accumulate` event issued for a request on the success path
of `GTM_updateBlockToProcess`. -/
def accumEvent (g : GTMatrix) (dst_rank : Nat) (q : GTMReq) : Event :=
  Event.accum dst_rank q.op
    (dstPos g.ld_local q.row_start (g.r_displs (dst_rank / g.c_blocks))
      q.col_start (g.c_displs (dst_rank % g.c_blocks)))
    (choosePlan g.sb_dim_max q.row_num q.col_num q.src_buf_ld g.ld_local)
    q.row_num q.col_num q.src_buf q.src_buf_ld

/-- The queue entry built by the `BATCH_ACCESS` branch of `GTM_updateBlock`
for one resolved sub-update. -/
def subUpdToReq (op : MPIOp) (src_buf src_buf_ld : Int) (u : SubUpd) : GTMReq :=
  { op := op, row_start := u.r_s, row_num := u.r_e - u.r_s + 1,
    col_start := u.c_s, col_num := u.c_e - u.c_s + 1,
    src_buf := src_buf + u.ptr_off, src_buf_ld := src_buf_ld }

/-- A concrete test handle: a 4×4 logical matrix split 2×2 into four 2×2
tiles across four destinations (the scenario of the design's §8.7), idle
state, flush threshold 8. -/
def gEx : GTMatrix :=
  { nrows := 4, ncols := 4, r_blocks := 2, c_blocks := 2,
    r_displs := fun i => 2 * (min i 2 : Int), c_displs := fun i => 2 * (min i 2 : Int),
    ld_local := 2, unit_size := 8, sb_dim_max := 16,
    my_rank := 0, comm_size := 4, max_nb_acc := 8,
    in_batch_get := false, in_batch_put := false, in_batch_acc := false,
    req_vec := fun _ => [], nb_op_proc_cnt := fun _ => 0, nb_op_cnt := 0,
    held := fun _ => false }

/-- A variant of `gEx` for batch-replay tests: a single-process group whose
own queue holds one request with zero rows (which the per-destination sanity
check rejects) followed by nothing else, inside an active batch epoch. -/
def gBad : GTMatrix :=
  { gEx with
    comm_size := 1,
    in_batch_put := true,
    in_batch_acc := true,
    req_vec := fun _ =>
      [({ op := .MPI_REPLACE,
          row_start := 0,
          row_num := 0,
          col_start := 0,
          col_num := 1,
          src_buf := 1000,
          src_buf_ld := 4 } : GTMReq)] }

/-- A variant of `gBad` whose queued request is valid for destination 0's
tile, so batch replay succeeds. -/
def gGood : GTMatrix :=
  { gBad with
    req_vec := fun _ =>
      [({ op := .MPI_REPLACE,
          row_start := 0,
          row_num := 2,
          col_start := 0,
          col_num := 2,
          src_buf := 1000,
          src_buf_ld := 4 } : GTMReq)] }

/-! ## Helper lemmas: integer ranges, block search, counting -/

theorem mem_intRange {s e m : Int} : m ∈ intRange s e ↔ s ≤ m ∧ m ≤ e := by
  unfold intRange
  simp only [List.mem_map, List.mem_range]
  constructor
  · rintro ⟨i, hi, rfl⟩
    omega
  · rintro ⟨h1, h2⟩
    exact ⟨(m - s).toNat, by omega, by omega⟩

theorem intRange_nodup (s e : Int) : (intRange s e).Nodup := by
  have hinj : Function.Injective (fun i : Nat => s + (i : Int)) := by
    intro a b h
    simpa using h
  exact (List.nodup_range _).map hinj

/-- A partition table is strictly increasing across its `n+1` entries. -/
def monoTable (d : Nat → Int) (n : Nat) : Prop := ∀ i, i < n → d i < d (i + 1)

theorem monoTable_le {d : Nat → Int} {n : Nat} (hm : monoTable d n) :
    ∀ i j, i ≤ j → j ≤ n → d i ≤ d j := by
  intro i j hij hjn
  obtain ⟨m, rfl⟩ := Nat.exists_eq_add_of_le hij
  clear hij
  induction m with
  | zero => simp
  | succ k ih =>
      have h1 : d i ≤ d (i + k) := ih (by omega)
      have h2 : d (i + k) < d (i + (k + 1)) := by
        have h := hm (i + k) (by omega)
        have heq : i + k + 1 = i + (k + 1) := by omega
        rwa [heq] at h
      omega

theorem blk_exists {d : Nat → Int} {n : Nat} {x : Int}
    (h0 : d 0 ≤ x) (hn : x < d n) :
    ∃ k, k < n ∧ d k ≤ x ∧ x < d (k + 1) := by
  induction n with
  | zero => exact absurd (lt_of_le_of_lt h0 hn) (lt_irrefl _)
  | succ m ih =>
      by_cases hdm : d m ≤ x
      · exact ⟨m, by omega, hdm, hn⟩
      · obtain ⟨k, hk, h1, h2⟩ := ih (by omega)
        exact ⟨k, by omega, h1, h2⟩

theorem blk_uniq {d : Nat → Int} {n : Nat} (hm : monoTable d n) {x : Int} {j k : Nat}
    (hj : j < n) (hk : k < n) (hj1 : d j ≤ x) (hj2 : x < d (j + 1))
    (hk1 : d k ≤ x) (hk2 : x < d (k + 1)) : j = k := by
  rcases Nat.lt_trichotomy j k with h | h | h
  · have := monoTable_le hm (j + 1) k (by omega) (by omega)
    omega
  · exact h
  · have := monoTable_le hm (k + 1) j (by omega) (by omega)
    omega

theorem findBlk_init_or_match (d : Nat → Int) (n : Nat) (x : Int) (init : Int) :
    findBlk d n x init = init ∨
    ∃ k, k < n ∧ findBlk d n x init = (k : Int) ∧ d k ≤ x ∧ x < d (k + 1) := by
  unfold findBlk
  induction n with
  | zero => left; rfl
  | succ m ih =>
      rw [show m + 1 = m.succ from rfl, List.range_succ, List.foldl_append,
        List.foldl_cons, List.foldl_nil]
      by_cases hdm : d m ≤ x ∧ x < d (m + 1)
      · right
        exact ⟨m, by omega, by rw [if_pos hdm], hdm.1, hdm.2⟩
      · rw [if_neg hdm]
        rcases ih with h | ⟨k, hk, heq, h1, h2⟩
        · left; exact h
        · right; exact ⟨k, by omega, heq, h1, h2⟩

theorem findBlk_eq {d : Nat → Int} {n : Nat} {x : Int} {k : Nat}
    (hk : k < n) (h1 : d k ≤ x) (h2 : x < d (k + 1))
    (huniq : ∀ j, j < n → d j ≤ x → x < d (j + 1) → j = k) (init : Int) :
    findBlk d n x init = (k : Int) := by
  unfold findBlk
  induction n with
  | zero => omega
  | succ m ih =>
      rw [show m + 1 = m.succ from rfl, List.range_succ, List.foldl_append,
        List.foldl_cons, List.foldl_nil]
      by_cases hdm : d m ≤ x ∧ x < d (m + 1)
      · have : m = k := huniq m (by omega) hdm.1 hdm.2
        rw [if_pos hdm, this]
      · rw [if_neg hdm]
        have hkm : k < m := by
          rcases Nat.lt_succ_iff_lt_or_eq.mp hk with h | h
          · exact h
          · subst h; exact absurd ⟨h1, h2⟩ hdm
        exact ih hkm (fun j hj => huniq j (by omega))

theorem findBlk_no_match {d : Nat → Int} {n : Nat} {x : Int}
    (h : ∀ i, i < n → ¬(d i ≤ x ∧ x < d (i + 1))) (init : Int) :
    findBlk d n x init = init := by
  rcases findBlk_init_or_match d n x init with heq | ⟨k, hk, _, h1, h2⟩
  · exact heq
  · exact absurd ⟨h1, h2⟩ (h k hk)

theorem countP_flatMap {α β : Type} (l : List α) (f : α → List β) (p : β → Bool) :
    (l.flatMap f).countP p = (l.map (fun a => (f a).countP p)).sum := by
  induction l with
  | nil => simp
  | cons a t ih => simp [List.countP_append, ih]

theorem sum_map_ite {α : Type} (l : List α) (p : α → Bool) :
    (l.map (fun a => if p a then (1 : Nat) else 0)).sum = l.countP p := by
  induction l with
  | nil => simp
  | cons a t ih =>
      by_cases h : p a
      · simp [h, ih, List.countP_cons, Nat.add_comm]
      · simp [h, ih, List.countP_cons]

theorem countP_eq_one_of_uniq {l : List Int} {p : Int → Bool} {k : Int}
    (hnd : l.Nodup) (hk : k ∈ l) (hp : p k) (hu : ∀ m ∈ l, p m → m = k) :
    l.countP p = 1 := by
  have h1 : l.countP p = l.countP (· == k) := by
    refine List.countP_congr (fun m hm => ?_)
    simp only [beq_iff_eq]
    constructor
    · exact fun h => hu m hm h
    · rintro rfl; exact hp
  rw [h1, ← List.count_eq_countP, List.count_eq_one_of_mem hnd hk]

theorem countP_eq_zero_of_none {l : List Int} {p : Int → Bool}
    (h : ∀ m ∈ l, ¬ p m) : l.countP p = 0 := by
  rw [List.countP_eq_zero]
  exact fun a ha => by simpa using h a ha

/-! ## One-dimensional block resolution -/

theorem intRange_nil {s e : Int} (h : e < s) : intRange s e = [] := by
  unfold intRange
  rw [show (e + 1 - s).toNat = 0 by omega]
  rfl

theorem findBlk_start {d : Nat → Int} {n : Nat} {x_s : Int} {k : Nat}
    (hm : monoTable d n) (hk : k < n) (h1 : d k ≤ x_s) (h2 : x_s < d (k + 1)) (init : Int) :
    findBlk d n x_s init = (k : Int) :=
  findBlk_eq hk h1 h2 (fun j hj hj1 hj2 => blk_uniq hm hj hk hj1 hj2 h1 h2) init

/-- The block index containing a coordinate grows with the coordinate. -/
theorem blk_mono {d : Nat → Int} {n : Nat} (hm : monoTable d n) {x y : Int} {j k : Nat}
    (hxy : x ≤ y) (hj : j < n) (hj1 : d j ≤ x) (hj2 : x < d (j + 1))
    (hk : k < n) (hk1 : d k ≤ y) (hk2 : y < d (k + 1)) : j ≤ k := by
  by_contra h
  have : k + 1 ≤ j := by omega
  have := monoTable_le hm (k + 1) j this (by omega)
  omega

/-- Every block index enumerated between the start and end blocks meets the
coordinate interval `[x_s, x_e]` in a non-empty sub-interval. -/
theorem blk_range_nonempty {d : Nat → Int} {n : Nat} {x_s x_e : Int} {ks ke : Nat}
    (hm : monoTable d n) (hse : x_s ≤ x_e)
    (hks : ks < n) (hks1 : d ks ≤ x_s) (hks2 : x_s < d (ks + 1))
    (hke : ke < n) (hke1 : d ke ≤ x_e) (hke2 : x_e < d (ke + 1))
    {b : Int} (hb : b ∈ intRange (ks : Int) (ke : Int)) :
    0 ≤ b ∧ b.toNat < n ∧ (ks : Int) ≤ b ∧ b ≤ (ke : Int) ∧
    max (d b.toNat) x_s ≤ min (d (b.toNat + 1) - 1) x_e := by
  rw [mem_intRange] at hb
  have hb0 : 0 ≤ b := le_trans (by omega) hb.1
  have hbn : b.toNat < n := by omega
  have hksb : ks ≤ b.toNat := by omega
  have hbke : b.toNat ≤ ke := by omega
  have hle1 : d b.toNat ≤ d ke := monoTable_le hm b.toNat ke hbke (by omega)
  have hle2 : d (ks + 1) ≤ d (b.toNat + 1) :=
    monoTable_le hm (ks + 1) (b.toNat + 1) (by omega) (by omega)
  have hstep : d b.toNat < d (b.toNat + 1) := hm b.toNat hbn
  refine ⟨hb0, hbn, by omega, by omega, ?_⟩
  rw [max_le_iff, le_min_iff, le_min_iff]
  refine ⟨⟨?_, ?_⟩, ?_, ?_⟩ <;> omega

/-- Each coordinate of `[x_s, x_e]` lies in the sub-interval of exactly one
enumerated block index. -/
theorem countP_blk_eq_one {d : Nat → Int} {n : Nat} {x_s x_e : Int} {ks ke : Nat}
    (hm : monoTable d n) (hks : ks < n) (hks1 : d ks ≤ x_s) (hks2 : x_s < d (ks + 1))
    (hke : ke < n) (hke1 : d ke ≤ x_e) (hke2 : x_e < d (ke + 1))
    {x : Int} (hx1 : x_s ≤ x) (hx2 : x ≤ x_e) :
    (intRange (ks : Int) (ke : Int)).countP
      (fun b => decide (max (d b.toNat) x_s ≤ x ∧ x ≤ min (d (b.toNat + 1) - 1) x_e)) = 1 := by
  have hx0 : d 0 ≤ x := le_trans (monoTable_le hm 0 ks (by omega) (by omega)) (by omega)
  have hxn : x < d n := by
    have := monoTable_le hm (ke + 1) n (by omega) (by omega)
    omega
  obtain ⟨k, hk, hk1, hk2⟩ := blk_exists hx0 hxn
  have hksk : ks ≤ k := blk_mono hm hx1 hks hks1 hks2 hk hk1 hk2
  have hkke : k ≤ ke := blk_mono hm hx2 hk hk1 hk2 hke hke1 hke2
  refine countP_eq_one_of_uniq (k := (k : Int)) (intRange_nodup _ _) ?_ ?_ ?_
  · rw [mem_intRange]
    omega
  · simp only [Int.toNat_natCast, decide_eq_true_eq]
    omega
  · intro m hm' hp
    rw [mem_intRange] at hm'
    simp only [decide_eq_true_eq] at hp
    have hm0 : 0 ≤ m := le_trans (by omega) hm'.1
    have hmn : m.toNat < n := by omega
    have h1 : d m.toNat ≤ x := le_trans (le_max_left _ _) hp.1
    have h2 : x < d (m.toNat + 1) := by
      have := le_trans hp.2 (min_le_left _ _)
      omega
    have := blk_uniq hm hmn hk h1 h2 hk1 hk2
    omega

/-! ## The destination enumeration under valid boundary tables -/

/-- The boundary tables of a handle are valid: strictly increasing, starting
at 0 and ending at the matrix dimension. -/
def validTables (g : GTMatrix) : Prop :=
  monoTable g.r_displs g.r_blocks ∧ monoTable g.c_displs g.c_blocks ∧
  g.r_displs 0 = 0 ∧ g.c_displs 0 = 0 ∧
  g.r_displs g.r_blocks = g.nrows ∧ g.c_displs g.c_blocks = g.ncols

/-- A requested rectangle is non-empty and fully inside the logical matrix. -/
def validRect (g : GTMatrix) (row_start row_num col_start col_num : Int) : Prop :=
  0 ≤ row_start ∧ 1 ≤ row_num ∧ row_start + row_num ≤ g.nrows ∧
  0 ≤ col_start ∧ 1 ≤ col_num ∧ col_start + col_num ≤ g.ncols

theorem rect_blocks {g : GTMatrix} {rs rn cs cn : Int}
    (hv : validTables g) (hr : validRect g rs rn cs cn) :
    ∃ ksr ker ksc kec : Nat,
      ksr < g.r_blocks ∧ g.r_displs ksr ≤ rs ∧ rs < g.r_displs (ksr + 1) ∧
      ker < g.r_blocks ∧ g.r_displs ker ≤ rs + rn - 1 ∧
        rs + rn - 1 < g.r_displs (ker + 1) ∧
      ksc < g.c_blocks ∧ g.c_displs ksc ≤ cs ∧ cs < g.c_displs (ksc + 1) ∧
      kec < g.c_blocks ∧ g.c_displs kec ≤ cs + cn - 1 ∧
        cs + cn - 1 < g.c_displs (kec + 1) ∧
      findBlk g.r_displs g.r_blocks rs 0 = (ksr : Int) ∧
      findBlk g.r_displs g.r_blocks (rs + rn - 1) (-1) = (ker : Int) ∧
      findBlk g.c_displs g.c_blocks cs 0 = (ksc : Int) ∧
      findBlk g.c_displs g.c_blocks (cs + cn - 1) (-1) = (kec : Int) := by
  obtain ⟨hmr, hmc, hr0, hc0, hrtop, hctop⟩ := hv
  obtain ⟨h1, h2, h3, h4, h5, h6⟩ := hr
  obtain ⟨ksr, hksr, hksr1, hksr2⟩ :=
    blk_exists (d := g.r_displs) (n := g.r_blocks) (x := rs) (by omega) (by omega)
  obtain ⟨ker, hker, hker1, hker2⟩ :=
    blk_exists (d := g.r_displs) (n := g.r_blocks) (x := rs + rn - 1) (by omega) (by omega)
  obtain ⟨ksc, hksc, hksc1, hksc2⟩ :=
    blk_exists (d := g.c_displs) (n := g.c_blocks) (x := cs) (by omega) (by omega)
  obtain ⟨kec, hkec, hkec1, hkec2⟩ :=
    blk_exists (d := g.c_displs) (n := g.c_blocks) (x := cs + cn - 1) (by omega) (by omega)
  exact ⟨ksr, ker, ksc, kec, hksr, hksr1, hksr2, hker, hker1, hker2,
    hksc, hksc1, hksc2, hkec, hkec1, hkec2,
    findBlk_start hmr hksr hksr1 hksr2 0,
    findBlk_start hmr hker hker1 hker2 (-1),
    findBlk_start hmc hksc hksc1 hksc2 0,
    findBlk_start hmc hkec hkec1 hkec2 (-1)⟩

theorem updatePairs_eq {g : GTMatrix} {rs rn cs cn ld : Int} {ksr ker ksc kec : Nat}
    (hf1 : findBlk g.r_displs g.r_blocks rs 0 = (ksr : Int))
    (hf2 : findBlk g.r_displs g.r_blocks (rs + rn - 1) (-1) = (ker : Int))
    (hf3 : findBlk g.c_displs g.c_blocks cs 0 = (ksc : Int))
    (hf4 : findBlk g.c_displs g.c_blocks (cs + cn - 1) (-1) = (kec : Int)) :
    updatePairs g rs rn cs cn ld =
    (intRange (ksr : Int) (ker : Int)).flatMap (fun br =>
      (intRange (ksc : Int) (kec : Int)).map (fun bc =>
        { blk_r := br, blk_c := bc,
          dst_rank := br * (g.c_blocks : Int) + bc,
          r_s := max (g.r_displs br.toNat) rs,
          r_e := min (g.r_displs (br.toNat + 1) - 1) (rs + rn - 1),
          c_s := max (g.c_displs bc.toNat) cs,
          c_e := min (g.c_displs (bc.toNat + 1) - 1) (cs + cn - 1),
          ptr_off := ((max (g.r_displs br.toNat) rs - rs) * ld +
            (max (g.c_displs bc.toNat) cs - cs)) * g.unit_size })) := by
  simp only [updatePairs, getRectIntersection, hf1, hf2, hf3, hf4]

theorem updatePairs_mem_facts {g : GTMatrix} {rs rn cs cn ld : Int}
    (hv : validTables g) (hr : validRect g rs rn cs cn)
    {u : SubUpd} (hu : u ∈ updatePairs g rs rn cs cn ld) :
    u.r_s ≤ u.r_e ∧ u.c_s ≤ u.c_e ∧
    u.dst_rank = u.blk_r * (g.c_blocks : Int) + u.blk_c ∧
    0 ≤ u.blk_r ∧ u.blk_r.toNat < g.r_blocks ∧
    0 ≤ u.blk_c ∧ u.blk_c.toNat < g.c_blocks ∧
    g.r_displs u.blk_r.toNat ≤ u.r_s ∧ u.r_e < g.r_displs (u.blk_r.toNat + 1) ∧
    g.c_displs u.blk_c.toNat ≤ u.c_s ∧ u.c_e < g.c_displs (u.blk_c.toNat + 1) ∧
    rs ≤ u.r_s ∧ u.r_e ≤ rs + rn - 1 ∧ cs ≤ u.c_s ∧ u.c_e ≤ cs + cn - 1 := by
  obtain ⟨ksr, ker, ksc, kec, hksr, hksr1, hksr2, hker, hker1, hker2,
    hksc, hksc1, hksc2, hkec, hkec1, hkec2, hf1, hf2, hf3, hf4⟩ := rect_blocks hv hr
  obtain ⟨hmr, hmc, hr0, hc0, hrtop, hctop⟩ := hv
  obtain ⟨h1, h2, h3, h4, h5, h6⟩ := hr
  rw [updatePairs_eq hf1 hf2 hf3 hf4, List.mem_flatMap] at hu
  obtain ⟨br, hbr, hu⟩ := hu
  rw [List.mem_map] at hu
  obtain ⟨bc, hbc, rfl⟩ := hu
  obtain ⟨hbr0, hbrn, _, _, hrowne⟩ :=
    blk_range_nonempty hmr (by omega) hksr hksr1 hksr2 hker hker1 hker2 hbr
  obtain ⟨hbc0, hbcn, _, _, hcolne⟩ :=
    blk_range_nonempty hmc (by omega) hksc hksc1 hksc2 hkec hkec1 hkec2 hbc
  dsimp only
  have hrmin := min_le_left (g.r_displs (br.toNat + 1) - 1) (rs + rn - 1)
  have hcmin := min_le_left (g.c_displs (bc.toNat + 1) - 1) (cs + cn - 1)
  refine ⟨hrowne, hcolne, rfl, hbr0, hbrn, hbc0, hbcn,
    le_max_left _ _, by omega, le_max_left _ _, by omega,
    le_max_right _ _, min_le_right _ _, le_max_right _ _, min_le_right _ _⟩

theorem updatePairs_countP {g : GTMatrix} {rs rn cs cn ld : Int}
    (hv : validTables g) (hr : validRect g rs rn cs cn)
    {i j : Int} (hi1 : rs ≤ i) (hi2 : i ≤ rs + rn - 1)
    (hj1 : cs ≤ j) (hj2 : j ≤ cs + cn - 1) :
    (updatePairs g rs rn cs cn ld).countP
      (fun u => decide (u.r_s ≤ i ∧ i ≤ u.r_e ∧ u.c_s ≤ j ∧ j ≤ u.c_e)) = 1 := by
  obtain ⟨ksr, ker, ksc, kec, hksr, hksr1, hksr2, hker, hker1, hker2,
    hksc, hksc1, hksc2, hkec, hkec1, hkec2, hf1, hf2, hf3, hf4⟩ := rect_blocks hv hr
  obtain ⟨hmr, hmc, hr0, hc0, hrtop, hctop⟩ := hv
  rw [updatePairs_eq hf1 hf2 hf3 hf4, countP_flatMap]
  have hcol : (intRange (ksc : Int) (kec : Int)).countP
      (fun b => decide (max (g.c_displs b.toNat) cs ≤ j ∧
        j ≤ min (g.c_displs (b.toNat + 1) - 1) (cs + cn - 1))) = 1 :=
    countP_blk_eq_one hmc hksc hksc1 hksc2 hkec hkec1 hkec2 hj1 hj2
  have hinner : ∀ br ∈ intRange (ksr : Int) (ker : Int),
      ((intRange (ksc : Int) (kec : Int)).map (fun bc =>
        ({ blk_r := br, blk_c := bc,
           dst_rank := br * (g.c_blocks : Int) + bc,
           r_s := max (g.r_displs br.toNat) rs,
           r_e := min (g.r_displs (br.toNat + 1) - 1) (rs + rn - 1),
           c_s := max (g.c_displs bc.toNat) cs,
           c_e := min (g.c_displs (bc.toNat + 1) - 1) (cs + cn - 1),
           ptr_off := ((max (g.r_displs br.toNat) rs - rs) * ld +
             (max (g.c_displs bc.toNat) cs - cs)) * g.unit_size } : SubUpd))).countP
        (fun u => decide (u.r_s ≤ i ∧ i ≤ u.r_e ∧ u.c_s ≤ j ∧ j ≤ u.c_e)) =
      if (decide (max (g.r_displs br.toNat) rs ≤ i ∧
          i ≤ min (g.r_displs (br.toNat + 1) - 1) (rs + rn - 1)) : Bool)
        then 1 else 0 := by
    intro br _
    rw [List.countP_map]
    by_cases hrow : max (g.r_displs br.toNat) rs ≤ i ∧
        i ≤ min (g.r_displs (br.toNat + 1) - 1) (rs + rn - 1)
    · rw [if_pos (by simpa using hrow)]
      refine Eq.trans (List.countP_congr (fun bc _ => ?_)) hcol
      simp only [Function.comp_apply, decide_eq_true_eq]
      constructor
      · exact fun h => ⟨h.2.2.1, h.2.2.2⟩
      · exact fun h => ⟨hrow.1, hrow.2, h.1, h.2⟩
    · rw [if_neg (by simpa using hrow)]
      rw [List.countP_eq_zero]
      intro u hu
      simp only [Function.comp_apply, decide_eq_true_eq]
      intro hc
      exact hrow ⟨hc.1, hc.2.1⟩
  rw [List.map_congr_left hinner, sum_map_ite]
  exact countP_blk_eq_one hmr hksr hksr1 hksr2 hker hker1 hker2 hi1 hi2

/-! ## Helper lemmas: the per-destination dispatch and the batch machinery -/

theorem updateBlockToProcess_cases (g : GTMatrix) (dst_rank : Nat) (op : MPIOp)
    (rs rn cs cn src ld : Int) :
    GTM_updateBlockToProcess g dst_rank op rs rn cs cn src ld = (GTM_INVALID_BLOCK, []) ∨
    GTM_updateBlockToProcess g dst_rank op rs rn cs cn src ld =
      (GTM_SUCCESS,
       [Event.accum dst_rank op
          (dstPos g.ld_local rs (g.r_displs (dst_rank / g.c_blocks))
            cs (g.c_displs (dst_rank % g.c_blocks)))
          (choosePlan g.sb_dim_max rn cn ld g.ld_local) rn cn src ld]) := by
  unfold GTM_updateBlockToProcess
  dsimp only
  by_cases h : rs < g.r_displs (dst_rank / g.c_blocks) ∨
      cs < g.c_displs (dst_rank % g.c_blocks) ∨
      rs + rn > g.r_displs (dst_rank / g.c_blocks + 1) ∨
      cs + cn > g.c_displs (dst_rank % g.c_blocks + 1) ∨ rn * cn = 0
  · left; rw [if_pos h]
  · right; rw [if_neg h]

theorem resetReqVector_req_vec_same (st : GTMatrix) (dst : Nat) :
    (GTM_resetReqVector st dst).req_vec dst = [] := by
  simp [GTM_resetReqVector]

theorem resetReqVector_req_vec_ne (st : GTMatrix) (dst q : Nat) (h : q ≠ dst) :
    (GTM_resetReqVector st dst).req_vec q = st.req_vec q := by
  simp [GTM_resetReqVector, Function.update_noteq h]

theorem updateBlockToProcess_reset (st : GTMatrix) (dst0 dst : Nat) (op : MPIOp)
    (rs rn cs cn src ld : Int) :
    GTM_updateBlockToProcess (GTM_resetReqVector st dst0) dst op rs rn cs cn src ld =
    GTM_updateBlockToProcess st dst op rs rn cs cn src ld := rfl

theorem accumEvent_reset (st : GTMatrix) (dst0 dst : Nat) :
    accumEvent (GTM_resetReqVector st dst0) dst = accumEvent st dst := rfl

theorem replayReqs_reset (st : GTMatrix) (dst0 dst : Nat) (reqs : List GTMReq) :
    replayReqs (GTM_resetReqVector st dst0) dst reqs = replayReqs st dst reqs := by
  induction reqs with
  | nil => rfl
  | cons q t ih =>
      simp only [replayReqs, updateBlockToProcess_reset, ih]

theorem replayReqs_events_rank (g : GTMatrix) (dst : Nat) (reqs : List GTMReq) :
    ∀ e ∈ (replayReqs g dst reqs).2, e.rank? = some dst := by
  induction reqs with
  | nil => intro e he; simp [replayReqs] at he
  | cons q t ih =>
      intro e he
      rcases updateBlockToProcess_cases g dst q.op q.row_start q.row_num q.col_start
        q.col_num q.src_buf q.src_buf_ld with hc | hc
      · simp [replayReqs, hc] at he
      · simp only [replayReqs, hc, List.cons_append, List.nil_append] at he
        cases he with
        | head => rfl
        | tail _ h => exact ih e h

theorem replayReqs_success (g : GTMatrix) (dst : Nat) (reqs : List GTMReq)
    (h : ∀ q ∈ reqs, (GTM_updateBlockToProcess g dst q.op q.row_start q.row_num
      q.col_start q.col_num q.src_buf q.src_buf_ld).1 = GTM_SUCCESS) :
    replayReqs g dst reqs = (GTM_SUCCESS, reqs.map (accumEvent g dst)) := by
  induction reqs with
  | nil => rfl
  | cons q t ih =>
      have hq := h q (List.mem_cons_self q t)
      rcases updateBlockToProcess_cases g dst q.op q.row_start q.row_num q.col_start
        q.col_num q.src_buf q.src_buf_ld with hc | hc
      · rw [hc] at hq; exact absurd hq (by simp)
      · simp only [replayReqs, hc, if_pos rfl,
          ih (fun p hp => h p (List.mem_cons_of_mem q hp)), List.map_cons]
        rfl

theorem pushToReqVector_req_vec (st : GTMatrix) (dst : Nat) (q : GTMReq) (r : Nat) :
    (GTM_pushToReqVector st dst q).2.req_vec r =
      if r = dst then st.req_vec dst ++ [q] else st.req_vec r := by
  simp [GTM_pushToReqVector, Function.update_apply]

theorem runSubUpds_batch (op : MPIOp) (src ld : Int) (st : GTMatrix) (l : List SubUpd) :
    (runSubUpds .BATCH_ACCESS op src ld st l).1 = GTM_SUCCESS ∧
    (runSubUpds .BATCH_ACCESS op src ld st l).2.2 = [] ∧
    (∀ q : Nat, (runSubUpds .BATCH_ACCESS op src ld st l).2.1.req_vec q =
      st.req_vec q ++
        (l.filter (fun u => u.dst_rank.toNat == q)).map (subUpdToReq op src ld)) ∧
    (runSubUpds .BATCH_ACCESS op src ld st l).2.1 =
      { st with req_vec := (runSubUpds .BATCH_ACCESS op src ld st l).2.1.req_vec } := by
  induction l generalizing st with
  | nil => exact ⟨rfl, rfl, fun q => by simp [runSubUpds], rfl⟩
  | cons u t ih =>
      have hstep : processSubUpd .BATCH_ACCESS st op src ld u =
          (GTM_SUCCESS,
           (GTM_pushToReqVector st u.dst_rank.toNat (subUpdToReq op src ld u)).2,
           []) := rfl
      set st1 : GTMatrix :=
        (GTM_pushToReqVector st u.dst_rank.toNat (subUpdToReq op src ld u)).2 with hst1
      obtain ⟨ih1, ih2, ih3, ih4⟩ := ih st1
      have hrun : runSubUpds .BATCH_ACCESS op src ld st (u :: t) =
          ((runSubUpds .BATCH_ACCESS op src ld st1 t).1,
           (runSubUpds .BATCH_ACCESS op src ld st1 t).2.1,
           [] ++ (runSubUpds .BATCH_ACCESS op src ld st1 t).2.2) := by
        simp [runSubUpds, hstep]
      rw [hrun]
      have hcomp : ∀ X : Nat → List GTMReq,
          ({ st1 with req_vec := X } : GTMatrix) = { st with req_vec := X } :=
        fun X => rfl
      refine ⟨ih1, by simpa using ih2, ?_, ?_⟩
      · intro q
        have hgoal : (runSubUpds .BATCH_ACCESS op src ld st1 t).2.1.req_vec q =
            st.req_vec q ++
              ((u :: t).filter (fun v => v.dst_rank.toNat == q)).map
                (subUpdToReq op src ld) := by
          rw [ih3 q, pushToReqVector_req_vec]
          by_cases hq : q = u.dst_rank.toNat
          · subst hq
            simp [List.filter_cons]
          · have hne : (u.dst_rank.toNat == q) = false := by
              simp [Ne.symm hq]
            simp [List.filter_cons, hq, hne]
        exact hgoal
      · rw [ih4, hcomp]

theorem execRanks_cons_pos_success (st : GTMatrix) (dst : Nat) (rest : List Nat)
    (h1 : (st.req_vec dst).length > 0)
    (h2 : (replayReqs st dst (st.req_vec dst)).1 = GTM_SUCCESS) :
    execRanks st (dst :: rest) =
      ((execRanks (GTM_resetReqVector st dst) rest).1,
       (execRanks (GTM_resetReqVector st dst) rest).2.1,
       Event.winLock dst :: (replayReqs st dst (st.req_vec dst)).2 ++
         Event.winUnlock dst :: (execRanks (GTM_resetReqVector st dst) rest).2.2) := by
  simp only [execRanks, if_pos h1, if_pos h2]

theorem execRanks_cons_pos_fail (st : GTMatrix) (dst : Nat) (rest : List Nat)
    (h1 : (st.req_vec dst).length > 0)
    (h2 : ¬ (replayReqs st dst (st.req_vec dst)).1 = GTM_SUCCESS) :
    execRanks st (dst :: rest) =
      ((replayReqs st dst (st.req_vec dst)).1, st,
       Event.winLock dst :: (replayReqs st dst (st.req_vec dst)).2) := by
  simp only [execRanks, if_pos h1, if_neg h2]

theorem execRanks_cons_empty (st : GTMatrix) (dst : Nat) (rest : List Nat)
    (h1 : ¬ (st.req_vec dst).length > 0) :
    execRanks st (dst :: rest) = execRanks (GTM_resetReqVector st dst) rest := by
  simp only [execRanks, if_neg h1]

theorem execRanks_req_vec_not_mem (l : List Nat) (st : GTMatrix) (q : Nat)
    (hq : q ∉ l) : (execRanks st l).2.1.req_vec q = st.req_vec q := by
  induction l generalizing st with
  | nil => rfl
  | cons dst rest ih =>
      have hqd : q ≠ dst := fun h => hq (h ▸ List.mem_cons_self dst rest)
      have hqr : q ∉ rest := fun h => hq (List.mem_cons_of_mem dst h)
      by_cases h1 : (st.req_vec dst).length > 0
      · by_cases h2 : (replayReqs st dst (st.req_vec dst)).1 = GTM_SUCCESS
        · rw [execRanks_cons_pos_success st dst rest h1 h2]
          exact (ih _ hqr).trans (resetReqVector_req_vec_ne st dst q hqd)
        · rw [execRanks_cons_pos_fail st dst rest h1 h2]
      · rw [execRanks_cons_empty st dst rest h1]
        exact (ih _ hqr).trans (resetReqVector_req_vec_ne st dst q hqd)

theorem flatMap_congr_mem {α β : Type} {l : List α} {f g : α → List β}
    (h : ∀ a ∈ l, f a = g a) : l.flatMap f = l.flatMap g := by
  induction l with
  | nil => rfl
  | cons a t ih =>
      simp only [List.flatMap_cons, h a (List.mem_cons_self a t),
        ih (fun b hb => h b (List.mem_cons_of_mem a hb))]

theorem execRanks_success (l : List Nat) (st : GTMatrix) (hnd : l.Nodup)
    (h : ∀ dst ∈ l, ∀ q ∈ st.req_vec dst,
      (GTM_updateBlockToProcess st dst q.op q.row_start q.row_num q.col_start
        q.col_num q.src_buf q.src_buf_ld).1 = GTM_SUCCESS) :
    (execRanks st l).1 = GTM_SUCCESS ∧
    (execRanks st l).2.2 = l.flatMap (fun dst =>
      if st.req_vec dst = [] then []
      else Event.winLock dst :: (st.req_vec dst).map (accumEvent st dst) ++
        [Event.winUnlock dst]) := by
  induction l generalizing st with
  | nil => exact ⟨rfl, rfl⟩
  | cons dst rest ih =>
      have hdr : dst ∉ rest := (List.nodup_cons.mp hnd).1
      have hndr : rest.Nodup := (List.nodup_cons.mp hnd).2
      have hrep : replayReqs st dst (st.req_vec dst) =
          (GTM_SUCCESS, (st.req_vec dst).map (accumEvent st dst)) :=
        replayReqs_success st dst _ (h dst (List.mem_cons_self dst rest))
      have hreset : ∀ d ∈ rest, ∀ q ∈ (GTM_resetReqVector st dst).req_vec d,
          (GTM_updateBlockToProcess (GTM_resetReqVector st dst) d q.op q.row_start
            q.row_num q.col_start q.col_num q.src_buf q.src_buf_ld).1 =
            GTM_SUCCESS := by
        intro d hd q hqmem
        have hdne : d ≠ dst := fun he => hdr (he ▸ hd)
        rw [resetReqVector_req_vec_ne st dst d hdne] at hqmem
        rw [updateBlockToProcess_reset]
        exact h d (List.mem_cons_of_mem dst hd) q hqmem
      obtain ⟨ih1, ih2⟩ := ih (GTM_resetReqVector st dst) hndr hreset
      have hcongr : rest.flatMap (fun d =>
          if (GTM_resetReqVector st dst).req_vec d = [] then []
          else Event.winLock d ::
            ((GTM_resetReqVector st dst).req_vec d).map
              (accumEvent (GTM_resetReqVector st dst) d) ++
            [Event.winUnlock d]) =
        rest.flatMap (fun d =>
          if st.req_vec d = [] then []
          else Event.winLock d :: (st.req_vec d).map (accumEvent st d) ++
            [Event.winUnlock d]) := by
        refine flatMap_congr_mem (fun d hd => ?_)
        have hdne : d ≠ dst := fun he => hdr (he ▸ hd)
        rw [resetReqVector_req_vec_ne st dst d hdne, accumEvent_reset]
      by_cases hempty : st.req_vec dst = []
      · have h1 : ¬ (st.req_vec dst).length > 0 := by simp [hempty]
        rw [execRanks_cons_empty st dst rest h1]
        refine ⟨ih1, ?_⟩
        rw [ih2, hcongr, List.flatMap_cons, if_pos hempty, List.nil_append]
      · have h1 : (st.req_vec dst).length > 0 := by
          cases hq : st.req_vec dst with
          | nil => exact absurd hq hempty
          | cons a t => simp [hq]
        rw [execRanks_cons_pos_success st dst rest h1 (by rw [hrep])]
        refine ⟨ih1, ?_⟩
        rw [ih2, hcongr, List.flatMap_cons, if_neg hempty, hrep]
        simp [List.append_assoc]

theorem execRanks_queues (l : List Nat) (st : GTMatrix) (hnd : l.Nodup) :
    ((execRanks st l).1 = GTM_SUCCESS →
      ∀ q ∈ l, (execRanks st l).2.1.req_vec q = []) ∧
    ((execRanks st l).1 ≠ GTM_SUCCESS → ∃ l1 q0 l2, l = l1 ++ q0 :: l2 ∧
      st.req_vec q0 ≠ [] ∧
      (replayReqs st q0 (st.req_vec q0)).1 = (execRanks st l).1 ∧
      (execRanks st l).2.1.req_vec q0 = st.req_vec q0 ∧
      (∀ q ∈ l1, (execRanks st l).2.1.req_vec q = []) ∧
      (∀ q ∈ l2, (execRanks st l).2.1.req_vec q = st.req_vec q) ∧
      (∀ e ∈ (execRanks st l).2.2, ∃ q, Event.rank? e = some q ∧ q ∈ l1 ++ [q0])) := by
  induction l generalizing st with
  | nil =>
      exact ⟨fun _ q hq => absurd hq (List.not_mem_nil q), fun hf => absurd rfl hf⟩
  | cons dst rest ih =>
      have hdr : dst ∉ rest := (List.nodup_cons.mp hnd).1
      have hndr : rest.Nodup := (List.nodup_cons.mp hnd).2
      by_cases h1 : (st.req_vec dst).length > 0
      · by_cases h2 : (replayReqs st dst (st.req_vec dst)).1 = GTM_SUCCESS
        · -- non-empty queue, replay succeeds: recurse on the reset state
          rw [execRanks_cons_pos_success st dst rest h1 h2]
          obtain ⟨ihs, ihf⟩ := ih (GTM_resetReqVector st dst) hndr
          constructor
          · intro hs q hq
            rcases List.mem_cons.mp hq with rfl | hq
            · rw [execRanks_req_vec_not_mem rest _ q hdr]
              exact resetReqVector_req_vec_same st q
            · exact ihs hs q hq
          · intro hf
            obtain ⟨l1, q0, l2, hsplit, hne, hrep, hq0, hl1, hl2, hev⟩ := ihf hf
            have hq0r : q0 ∈ rest := by
              rw [hsplit]; exact List.mem_append_right l1 (List.mem_cons_self q0 l2)
            have hq0d : q0 ≠ dst := fun he => hdr (he ▸ hq0r)
            have hq0vec : (GTM_resetReqVector st dst).req_vec q0 = st.req_vec q0 :=
              resetReqVector_req_vec_ne st dst q0 hq0d
            refine ⟨dst :: l1, q0, l2, by rw [hsplit]; rfl, ?_, ?_, ?_, ?_, ?_, ?_⟩
            · rwa [hq0vec] at hne
            · rw [← replayReqs_reset st dst q0, ← hq0vec]
              exact hrep
            · rw [hq0, hq0vec]
            · intro q hq
              rcases List.mem_cons.mp hq with rfl | hq
              · rw [execRanks_req_vec_not_mem rest _ q hdr]
                exact resetReqVector_req_vec_same st q
              · exact hl1 q hq
            · intro q hq
              have hqr : q ∈ rest := by
                rw [hsplit]
                exact List.mem_append_right l1 (List.mem_cons_of_mem q0 hq)
              have hqd : q ≠ dst := fun he => hdr (he ▸ hqr)
              rw [hl2 q hq]
              exact resetReqVector_req_vec_ne st dst q hqd
            · intro e he
              rcases List.mem_cons.mp he with rfl | he
              · exact ⟨dst, rfl, List.mem_append_left _ (List.mem_cons_self dst l1)⟩
              · rcases List.mem_append.mp he with he | he
                · exact ⟨dst, replayReqs_events_rank st dst _ e he,
                    List.mem_append_left _ (List.mem_cons_self dst l1)⟩
                · rcases List.mem_cons.mp he with rfl | he
                  · exact ⟨dst, rfl, List.mem_append_left _ (List.mem_cons_self dst l1)⟩
                  · obtain ⟨q, hq, hqmem⟩ := hev e he
                    refine ⟨q, hq, ?_⟩
                    rcases List.mem_append.mp hqmem with hm | hm
                    · exact List.mem_append_left _ (List.mem_cons_of_mem dst hm)
                    · exact List.mem_append_right _ hm
        · -- non-empty queue, replay fails: stop immediately
          rw [execRanks_cons_pos_fail st dst rest h1 h2]
          constructor
          · intro hs
            exact absurd hs h2
          · intro _
            refine ⟨[], dst, rest, rfl, ?_, rfl, rfl, ?_, ?_, ?_⟩
            · intro he; rw [he] at h1; simp at h1
            · intro q hq; exact absurd hq (List.not_mem_nil q)
            · intro q _; rfl
            · intro e he
              rcases List.mem_cons.mp he with rfl | he
              · exact ⟨dst, rfl, List.mem_cons_self dst []⟩
              · exact ⟨dst, replayReqs_events_rank st dst _ e he,
                  List.mem_cons_self dst []⟩
      · -- empty queue: reset (a no-op) and recurse
        rw [execRanks_cons_empty st dst rest h1]
        obtain ⟨ihs, ihf⟩ := ih (GTM_resetReqVector st dst) hndr
        constructor
        · intro hs q hq
          rcases List.mem_cons.mp hq with rfl | hq
          · rw [execRanks_req_vec_not_mem rest _ q hdr]
            exact resetReqVector_req_vec_same st q
          · exact ihs hs q hq
        · intro hf
          obtain ⟨l1, q0, l2, hsplit, hne, hrep, hq0, hl1, hl2, hev⟩ := ihf hf
          have hq0r : q0 ∈ rest := by
            rw [hsplit]; exact List.mem_append_right l1 (List.mem_cons_self q0 l2)
          have hq0d : q0 ≠ dst := fun he => hdr (he ▸ hq0r)
          have hq0vec : (GTM_resetReqVector st dst).req_vec q0 = st.req_vec q0 :=
            resetReqVector_req_vec_ne st dst q0 hq0d
          refine ⟨dst :: l1, q0, l2, by rw [hsplit]; rfl, ?_, ?_, ?_, ?_, ?_, ?_⟩
          · rwa [hq0vec] at hne
          · rw [← replayReqs_reset st dst q0, ← hq0vec]
            exact hrep
          · rw [hq0, hq0vec]
          · intro q hq
            rcases List.mem_cons.mp hq with rfl | hq
            · rw [execRanks_req_vec_not_mem rest _ q hdr]
              exact resetReqVector_req_vec_same st q
            · exact hl1 q hq
          · intro q hq
            have hqr : q ∈ rest := by
              rw [hsplit]
              exact List.mem_append_right l1 (List.mem_cons_of_mem q0 hq)
            have hqd : q ≠ dst := fun he => hdr (he ▸ hqr)
            rw [hl2 q hq]
            exact resetReqVector_req_vec_ne st dst q hqd
          · intro e he
            obtain ⟨q, hq, hqmem⟩ := hev e he
            refine ⟨q, hq, ?_⟩
            rcases List.mem_append.mp hqmem with hm | hm
            · exact List.mem_append_left _ (List.mem_cons_of_mem dst hm)
            · exact List.mem_append_right _ hm

theorem roundRobinRanks_nodup (my_rank comm_size : Nat) :
    (roundRobinRanks my_rank comm_size).Nodup := by
  unfold roundRobinRanks
  refine (List.nodup_range comm_size).map_on ?_
  intro i hi j hj hij
  rw [List.mem_range] at hi hj
  have hmod : Nat.ModEq comm_size i j := Nat.ModEq.add_left_cancel' my_rank hij
  have : i % comm_size = j % comm_size := hmod
  rwa [Nat.mod_eq_of_lt hi, Nat.mod_eq_of_lt hj] at this

/-! ## Claim theorems -/

/-- C1: for every matrix handle with valid boundary tables and every
non-empty rectangle fully inside the logical matrix bounds, the set of
(destination rank, sub-rectangle) pairs enumerated by `GTM_updateBlock`
(`updatePairs`) exactly tiles the requested rectangle: every enumerated
intersection is non-empty, each sub-rectangle lies entirely within the owned
tile of the destination whose rank equals
block-row-index * column-block-count + block-column-index and within the
request, and every cell of the request is covered by exactly one enumerated
sub-rectangle (no overlaps and no gaps). -/
theorem GTM_updateBlock_partition (g : GTMatrix) (rs rn cs cn ld : Int)
    (hv : validTables g) (hr : validRect g rs rn cs cn) :
    (∀ u ∈ updatePairs g rs rn cs cn ld,
      (u.r_s ≤ u.r_e ∧ u.c_s ≤ u.c_e) ∧
      u.dst_rank = u.blk_r * (g.c_blocks : Int) + u.blk_c ∧
      (g.r_displs u.blk_r.toNat ≤ u.r_s ∧ u.r_e < g.r_displs (u.blk_r.toNat + 1) ∧
       g.c_displs u.blk_c.toNat ≤ u.c_s ∧ u.c_e < g.c_displs (u.blk_c.toNat + 1)) ∧
      (rs ≤ u.r_s ∧ u.r_e ≤ rs + rn - 1 ∧ cs ≤ u.c_s ∧ u.c_e ≤ cs + cn - 1)) ∧
    (∀ i j : Int, rs ≤ i → i ≤ rs + rn - 1 → cs ≤ j → j ≤ cs + cn - 1 →
      (updatePairs g rs rn cs cn ld).countP
        (fun u => decide (u.r_s ≤ i ∧ i ≤ u.r_e ∧ u.c_s ≤ j ∧ j ≤ u.c_e)) = 1) := by
  constructor
  · intro u hu
    obtain ⟨a1, a2, a3, _, _, _, _, a8, a9, a10, a11, a12, a13, a14, a15⟩ :=
      updatePairs_mem_facts hv hr hu
    exact ⟨⟨a1, a2⟩, a3, ⟨a8, a9, a10, a11⟩, ⟨a12, a13, a14, a15⟩⟩
  · intro i j h1 h2 h3 h4
    exact updatePairs_countP hv hr h1 h2 h3 h4

/-- Witness for `GTM_updateBlock_partition`: the full 4×4 rectangle on the
2×2-tiled example, checked at cell (2,1). -/
theorem GTM_updateBlock_partition_witness :
    (updatePairs gEx 0 4 0 4 4).countP
      (fun u => decide (u.r_s ≤ 2 ∧ 2 ≤ u.r_e ∧ u.c_s ≤ 1 ∧ 1 ≤ u.c_e)) = 1 :=
  (GTM_updateBlock_partition gEx 0 4 0 4 4
    (by unfold validTables monoTable; refine ⟨by decide, by decide, rfl, rfl, by decide, by decide⟩)
    (by unfold validRect; refine ⟨by decide, by decide, by decide, by decide, by decide, by decide⟩)).2
    2 1 (by decide) (by decide) (by decide) (by decide)

/-- C10: on any handle with valid boundary tables, the rectangle
`row_start = 0, row_num = -1, col_start = 0, col_num = -1` has a positive
product `row_num * col_num`, so the outer validation passes; the block
search finds no ending block, both loops are empty, and `GTM_updateBlock`
returns the success code with the state unchanged and no operation issued or
request enqueued, instead of returning `InvalidBlock`. -/
theorem GTM_updateBlock_negative_size (g : GTMatrix) (op : MPIOp)
    (src ld : Int) (mode : AccessMode) (hv : validTables g) :
    GTM_updateBlockG g op 0 (-1) 0 (-1) src ld mode = (GTM_SUCCESS, g, []) := by
  obtain ⟨hmr, hmc, hr0, hc0, hrtop, hctop⟩ := hv
  have hnr : 0 ≤ g.nrows := by
    have := monoTable_le hmr 0 g.r_blocks (Nat.zero_le _) (le_refl _)
    omega
  have hnc : 0 ≤ g.ncols := by
    have := monoTable_le hmc 0 g.c_blocks (Nat.zero_le _) (le_refl _)
    omega
  have hcond : ¬((0:Int) < 0 ∨ (0:Int) < 0 ∨ (0:Int) + -1 > g.nrows ∨
      (0:Int) + -1 > g.ncols ∨ (-1:Int) * -1 = 0) := by
    intro h
    rcases h with h | h | h | h | h <;> omega
  have hner : findBlk g.r_displs g.r_blocks ((0:Int) + -1 - 1) (-1) = -1 := by
    refine findBlk_no_match (fun i hi hcon => ?_) (-1)
    have : 0 ≤ g.r_displs i := by
      have := monoTable_le hmr 0 i (Nat.zero_le _) (le_of_lt hi)
      omega
    omega
  have hs0 : 0 ≤ findBlk g.r_displs g.r_blocks 0 0 := by
    rcases findBlk_init_or_match g.r_displs g.r_blocks 0 0 with hs | ⟨k, _, hs, _, _⟩
    · omega
    · rw [hs]; exact Int.natCast_nonneg k
  have hpairs : updatePairs g 0 (-1) 0 (-1) ld = [] := by
    simp only [updatePairs, hner]
    rw [intRange_nil (by omega)]
    rfl
  unfold GTM_updateBlockG
  rw [if_neg hcond, hpairs]
  rfl

/-- Witness for `GTM_updateBlock_negative_size` at the concrete example. -/
theorem GTM_updateBlock_negative_size_witness :
    GTM_updateBlockG gEx .MPI_SUM 0 (-1) 0 (-1) 1000 4 .BATCH_ACCESS =
      (GTM_SUCCESS, gEx, []) :=
  GTM_updateBlock_negative_size gEx .MPI_SUM 1000 4 .BATCH_ACCESS
    (by unfold validTables monoTable; refine ⟨by decide, by decide, rfl, rfl, by decide, by decide⟩)

/-- C2 counterexample: with both batch flags clear — no batch epoch active —
`GTM_addPutBlockRequest` does NOT fail: it returns the success code and a
resolved request is appended to destination 0's queue.  The code performs no
epoch-active check on the add path. -/
theorem GTM_addPutBlockRequest_no_epoch_check :
    gEx.in_batch_put = false ∧ gEx.in_batch_acc = false ∧
    (GTM_addPutBlockRequest (some gEx) 1 2 1 2 1000 4).1 = GTM_SUCCESS ∧
    ((GTM_addPutBlockRequest (some gEx) 1 2 1 2 1000 4).2.1.map
      (fun s => (s.req_vec 0).length)) = some 1 := by
  refine ⟨rfl, rfl, by decide, by decide⟩

/-- C2 (amended): a batched add (`GTM_updateBlock` with `BATCH_ACCESS`, the
path of `GTM_addPutBlockRequest` / `GTM_addAccBlockRequest`) issues no
one-sided operation and appends exactly the fully resolved per-destination
sub-updates, in enumeration order, to the corresponding destination queues,
leaving every other handle field unchanged — but it does so regardless of
the batch flags: the code makes no epoch-active check at add time, so the
call succeeds (rather than failing) even when no batch epoch is active. -/
theorem GTM_updateBlock_batch_append (st : GTMatrix) (op : MPIOp)
    (rs rn cs cn src ld : Int) (hr : validRect st rs rn cs cn) :
    (GTM_updateBlockG st op rs rn cs cn src ld .BATCH_ACCESS).1 = GTM_SUCCESS ∧
    (GTM_updateBlockG st op rs rn cs cn src ld .BATCH_ACCESS).2.2 = [] ∧
    (∀ q : Nat,
      (GTM_updateBlockG st op rs rn cs cn src ld .BATCH_ACCESS).2.1.req_vec q =
        st.req_vec q ++ ((updatePairs st rs rn cs cn ld).filter
          (fun u => u.dst_rank.toNat == q)).map (subUpdToReq op src ld)) ∧
    (GTM_updateBlockG st op rs rn cs cn src ld .BATCH_ACCESS).2.1 =
      { st with req_vec :=
         (GTM_updateBlockG st op rs rn cs cn src ld .BATCH_ACCESS).2.1.req_vec } := by
  obtain ⟨h1, h2, h3, h4, h5, h6⟩ := hr
  have hprod : rn * cn ≠ 0 := by
    have : 0 < rn * cn := mul_pos (by omega) (by omega)
    omega
  have hcond : ¬(rs < 0 ∨ cs < 0 ∨ rs + rn > st.nrows ∨ cs + cn > st.ncols ∨
      rn * cn = 0) := by
    intro h
    rcases h with h | h | h | h | h <;> omega
  have hrw : GTM_updateBlockG st op rs rn cs cn src ld .BATCH_ACCESS =
      runSubUpds .BATCH_ACCESS op src ld st (updatePairs st rs rn cs cn ld) := by
    unfold GTM_updateBlockG
    rw [if_neg hcond]
  rw [hrw]
  exact runSubUpds_batch op src ld st _

/-- Witness for `GTM_updateBlock_batch_append`. -/
theorem GTM_updateBlock_batch_append_witness :
    (GTM_updateBlockG gEx .MPI_REPLACE 1 2 1 2 1000 4 .BATCH_ACCESS).1 =
      GTM_SUCCESS ∧
    (GTM_updateBlockG gEx .MPI_REPLACE 1 2 1 2 1000 4 .BATCH_ACCESS).2.2 = [] :=
  ⟨(GTM_updateBlock_batch_append gEx .MPI_REPLACE 1 2 1 2 1000 4
      (by unfold validRect; refine ⟨by decide, by decide, by decide, by decide, by decide, by decide⟩)).1,
   (GTM_updateBlock_batch_append gEx .MPI_REPLACE 1 2 1 2 1000 4
      (by unfold validRect; refine ⟨by decide, by decide, by decide, by decide, by decide, by decide⟩)).2.1⟩

/-- C3 counterexample: in `gBad` the only destination's replay fails (its
queued request has zero rows), `GTM_execBatchUpdate` returns the error and
the destination's queue is NOT cleared — contradicting "cleared afterwards
regardless of whether the replay succeeded or failed". -/
theorem GTM_execBatchUpdate_no_clear_on_fail :
    (GTM_execBatchUpdate gBad).1 = GTM_INVALID_BLOCK ∧
    ((GTM_execBatchUpdate gBad).2.1.req_vec 0).length = 1 := by
  refine ⟨by decide, by decide⟩

/-- C3 (amended): during `GTM_execBatchUpdate`, queues are cleared for every
destination whose replay completed (destinations visited with empty queues
included); on the first replay failure the call returns that error
immediately, leaving the failing destination's queue uncleared, and the
queues of destinations not yet visited are neither executed (no event
mentions their rank) nor cleared. -/
theorem GTM_execBatchUpdate_clearing (st : GTMatrix)
    (hput : st.in_batch_put = true) (hacc : st.in_batch_acc = true) :
    ((GTM_execBatchUpdate st).1 = GTM_SUCCESS →
      ∀ q ∈ roundRobinRanks st.my_rank st.comm_size,
        (GTM_execBatchUpdate st).2.1.req_vec q = []) ∧
    ((GTM_execBatchUpdate st).1 ≠ GTM_SUCCESS → ∃ l1 q0 l2,
      roundRobinRanks st.my_rank st.comm_size = l1 ++ q0 :: l2 ∧
      st.req_vec q0 ≠ [] ∧
      (replayReqs st q0 (st.req_vec q0)).1 = (GTM_execBatchUpdate st).1 ∧
      (GTM_execBatchUpdate st).2.1.req_vec q0 = st.req_vec q0 ∧
      (∀ q ∈ l1, (GTM_execBatchUpdate st).2.1.req_vec q = []) ∧
      (∀ q ∈ l2, (GTM_execBatchUpdate st).2.1.req_vec q = st.req_vec q) ∧
      (∀ e ∈ (GTM_execBatchUpdate st).2.2,
        ∃ q, Event.rank? e = some q ∧ q ∈ l1 ++ [q0])) := by
  have hexec : GTM_execBatchUpdate st =
      execRanks st (roundRobinRanks st.my_rank st.comm_size) := by
    unfold GTM_execBatchUpdate
    rw [hput, hacc]
    rfl
  rw [hexec]
  exact execRanks_queues _ st (roundRobinRanks_nodup _ _)

/-- Witness for `GTM_execBatchUpdate_clearing`: the success side at `gGood`
clears destination 0's queue. -/
theorem GTM_execBatchUpdate_clearing_witness :
    (GTM_execBatchUpdate gGood).2.1.req_vec 0 = [] :=
  (GTM_execBatchUpdate_clearing gGood rfl rfl).1 (by decide) 0 (by decide)

/-- C4: `GTM_updateBlockToProcess` selects the transfer descriptor by the
priority policy embodied in `choosePlan`: within the small-block bound `B`
it uses the cached descriptor at index `(row_num - 1) * B + (col_num - 1)` —
the no-stride source variant when the source stride equals `col_num`, the
same cached descriptor for both sides when the source stride equals the
local stride, and otherwise a one-off source descriptor released right after
the call; when either dimension exceeds the bound, one-off descriptors are
built for both sides and released right after the call. -/
theorem choosePlan_policy (B rn cn ld ldl : Int) :
    (rn ≤ B → cn ≤ B →
      ((ld = cn →
        choosePlan B rn cn ld ldl = .cachedNoStride ((rn - 1) * B + (cn - 1))) ∧
       (ld ≠ cn → ldl = ld →
        choosePlan B rn cn ld ldl = .cachedBoth ((rn - 1) * B + (cn - 1))) ∧
       (ld ≠ cn → ldl ≠ ld →
        choosePlan B rn cn ld ldl = .cachedDstOneOffSrc ((rn - 1) * B + (cn - 1))))) ∧
    (¬(rn ≤ B ∧ cn ≤ B) → choosePlan B rn cn ld ldl = .oneOffBoth) := by
  constructor
  · intro hrn hcn
    refine ⟨?_, ?_, ?_⟩
    · intro h
      unfold choosePlan
      rw [if_pos ⟨hrn, hcn⟩, if_pos h.symm]
    · intro h hld
      unfold choosePlan
      rw [if_pos ⟨hrn, hcn⟩, if_neg (fun he => h he.symm), if_pos hld]
    · intro h hld
      unfold choosePlan
      rw [if_pos ⟨hrn, hcn⟩, if_neg (fun he => h he.symm), if_neg hld]
  · intro h
    unfold choosePlan
    rw [if_neg h]

/-- Witness for `choosePlan_policy` over the four regimes. -/
theorem choosePlan_policy_witness :
    choosePlan 16 2 3 3 5 = .cachedNoStride ((2 - 1) * 16 + (3 - 1)) ∧
    choosePlan 16 2 3 5 5 = .cachedBoth ((2 - 1) * 16 + (3 - 1)) ∧
    choosePlan 16 2 3 5 7 = .cachedDstOneOffSrc ((2 - 1) * 16 + (3 - 1)) ∧
    choosePlan 16 20 3 5 7 = .oneOffBoth :=
  ⟨((choosePlan_policy 16 2 3 3 5).1 (by decide) (by decide)).1 (by decide),
   ((choosePlan_policy 16 2 3 5 5).1 (by decide) (by decide)).2.1 (by decide) (by decide),
   ((choosePlan_policy 16 2 3 5 7).1 (by decide) (by decide)).2.2 (by decide) (by decide),
   (choosePlan_policy 16 20 3 5 7).2 (by decide)⟩

/-- C5: `GTM_updateBlock` returns the null-handle code when the matrix
handle is absent, and the invalid-block code when the requested rectangle
has a negative origin, extends past the matrix dimensions, or has zero rows
or zero columns; the per-destination stage `GTM_updateBlockToProcess`
redundantly returns the invalid-block code when the sub-rectangle is not
contained in the destination's owned tile or has zero area. -/
theorem GTM_updateBlock_error_codes (g : GTMatrix) (op : MPIOp)
    (rs rn cs cn src ld : Int) (mode : AccessMode) (dst_rank : Nat) :
    (GTM_updateBlock none op rs rn cs cn src ld mode).1 = GTM_NULL_PTR ∧
    ((rs < 0 ∨ cs < 0 ∨ rs + rn > g.nrows ∨ cs + cn > g.ncols ∨
      rn = 0 ∨ cn = 0) →
      (GTM_updateBlockG g op rs rn cs cn src ld mode).1 = GTM_INVALID_BLOCK) ∧
    ((rs < g.r_displs (dst_rank / g.c_blocks) ∨
      cs < g.c_displs (dst_rank % g.c_blocks) ∨
      rs + rn > g.r_displs (dst_rank / g.c_blocks + 1) ∨
      cs + cn > g.c_displs (dst_rank % g.c_blocks + 1) ∨ rn * cn = 0) →
      (GTM_updateBlockToProcess g dst_rank op rs rn cs cn src ld).1 =
        GTM_INVALID_BLOCK) := by
  refine ⟨rfl, ?_, ?_⟩
  · intro h
    have hcond : rs < 0 ∨ cs < 0 ∨ rs + rn > g.nrows ∨ cs + cn > g.ncols ∨
        rn * cn = 0 := by
      rcases h with h | h | h | h | h | h
      · exact Or.inl h
      · exact Or.inr (Or.inl h)
      · exact Or.inr (Or.inr (Or.inl h))
      · exact Or.inr (Or.inr (Or.inr (Or.inl h)))
      · exact Or.inr (Or.inr (Or.inr (Or.inr (by rw [h, zero_mul]))))
      · exact Or.inr (Or.inr (Or.inr (Or.inr (by rw [h, mul_zero]))))
    unfold GTM_updateBlockG
    rw [if_pos hcond]
  · intro h
    unfold GTM_updateBlockToProcess
    dsimp only
    rw [if_pos h]

/-- Witness for `GTM_updateBlock_error_codes`: absent handle, a rectangle
with negative origin, and a zero-row sub-rectangle at the destination
stage. -/
theorem GTM_updateBlock_error_codes_witness :
    (GTM_updateBlock none .MPI_SUM 0 1 0 1 0 1 .BLOCKING_ACCESS).1 =
      GTM_NULL_PTR ∧
    (GTM_updateBlockG gEx .MPI_SUM (-1) 1 0 1 0 4 .BLOCKING_ACCESS).1 =
      GTM_INVALID_BLOCK ∧
    (GTM_updateBlockToProcess gEx 0 .MPI_SUM 0 0 0 1 0 4).1 =
      GTM_INVALID_BLOCK :=
  ⟨(GTM_updateBlock_error_codes gEx .MPI_SUM 0 1 0 1 0 1 .BLOCKING_ACCESS 0).1,
   (GTM_updateBlock_error_codes gEx .MPI_SUM (-1) 1 0 1 0 4 .BLOCKING_ACCESS 0).2.1
     (by decide),
   (GTM_updateBlock_error_codes gEx .MPI_SUM 0 0 0 1 0 4 .BLOCKING_ACCESS 0).2.2
     (by decide)⟩

/-- C6: for every sub-rectangle fully inside a destination's owned tile (and
a local stride at least the tile width), the destination offset computed by
`GTM_updateBlockToProcess` — the `dst_pos` carried by the issued accumulate
event — equals `(sub_row_start - tile_row_start) * local_stride +
(sub_col_start - tile_col_start)` and lies within
`[0, local_stride * tile_row_count)`. -/
theorem GTM_updateBlockToProcess_offset (g : GTMatrix) (dst_rank : Nat)
    (rs rn cs cn : Int)
    (h1 : g.r_displs (dst_rank / g.c_blocks) ≤ rs)
    (h2 : g.c_displs (dst_rank % g.c_blocks) ≤ cs)
    (h3 : rs + rn ≤ g.r_displs (dst_rank / g.c_blocks + 1))
    (h4 : cs + cn ≤ g.c_displs (dst_rank % g.c_blocks + 1))
    (h5 : 1 ≤ rn) (h6 : 1 ≤ cn)
    (h7 : g.c_displs (dst_rank % g.c_blocks + 1) -
      g.c_displs (dst_rank % g.c_blocks) ≤ g.ld_local) :
    (∀ op src ld, (GTM_updateBlockToProcess g dst_rank op rs rn cs cn src ld).2 =
      [Event.accum dst_rank op
        (dstPos g.ld_local rs (g.r_displs (dst_rank / g.c_blocks))
          cs (g.c_displs (dst_rank % g.c_blocks)))
        (choosePlan g.sb_dim_max rn cn ld g.ld_local) rn cn src ld]) ∧
    dstPos g.ld_local rs (g.r_displs (dst_rank / g.c_blocks))
        cs (g.c_displs (dst_rank % g.c_blocks)) =
      (rs - g.r_displs (dst_rank / g.c_blocks)) * g.ld_local +
        (cs - g.c_displs (dst_rank % g.c_blocks)) ∧
    0 ≤ dstPos g.ld_local rs (g.r_displs (dst_rank / g.c_blocks))
        cs (g.c_displs (dst_rank % g.c_blocks)) ∧
    dstPos g.ld_local rs (g.r_displs (dst_rank / g.c_blocks))
        cs (g.c_displs (dst_rank % g.c_blocks)) <
      g.ld_local * (g.r_displs (dst_rank / g.c_blocks + 1) -
        g.r_displs (dst_rank / g.c_blocks)) := by
  have hprod : rn * cn ≠ 0 := by
    have : 0 < rn * cn := mul_pos (by omega) (by omega)
    omega
  have hld : 1 ≤ g.ld_local := by omega
  have hcond : ¬(rs < g.r_displs (dst_rank / g.c_blocks) ∨
      cs < g.c_displs (dst_rank % g.c_blocks) ∨
      rs + rn > g.r_displs (dst_rank / g.c_blocks + 1) ∨
      cs + cn > g.c_displs (dst_rank % g.c_blocks + 1) ∨ rn * cn = 0) := by
    intro h
    rcases h with h | h | h | h | h <;> omega
  refine ⟨?_, rfl, ?_, ?_⟩
  · intro op src ld
    unfold GTM_updateBlockToProcess
    dsimp only
    rw [if_neg hcond]
  · unfold dstPos
    have : 0 ≤ (rs - g.r_displs (dst_rank / g.c_blocks)) * g.ld_local :=
      mul_nonneg (by omega) (by omega)
    omega
  · unfold dstPos
    have hkey : (rs - g.r_displs (dst_rank / g.c_blocks)) * g.ld_local ≤
        (g.r_displs (dst_rank / g.c_blocks + 1) -
          g.r_displs (dst_rank / g.c_blocks) - 1) * g.ld_local :=
      mul_le_mul_of_nonneg_right (by omega) (by omega)
    have hring : (g.r_displs (dst_rank / g.c_blocks + 1) -
        g.r_displs (dst_rank / g.c_blocks) - 1) * g.ld_local =
      g.ld_local * (g.r_displs (dst_rank / g.c_blocks + 1) -
        g.r_displs (dst_rank / g.c_blocks)) - g.ld_local := by ring
    omega

/-- Witness for `GTM_updateBlockToProcess_offset`: destination 3 of the
example owns rows `[2,4)` × cols `[2,4)`; the sub-rectangle starting at
(3,3) maps to offset 3 ∈ [0, 2·2). -/
theorem GTM_updateBlockToProcess_offset_witness :
    0 ≤ dstPos gEx.ld_local 3 (gEx.r_displs (3 / gEx.c_blocks))
        3 (gEx.c_displs (3 % gEx.c_blocks)) ∧
    dstPos gEx.ld_local 3 (gEx.r_displs (3 / gEx.c_blocks))
        3 (gEx.c_displs (3 % gEx.c_blocks)) <
      gEx.ld_local * (gEx.r_displs (3 / gEx.c_blocks + 1) -
        gEx.r_displs (3 / gEx.c_blocks)) :=
  ⟨(GTM_updateBlockToProcess_offset gEx 3 3 1 3 1 (by decide) (by decide)
      (by decide) (by decide) (by decide) (by decide) (by decide)).2.2.1,
   (GTM_updateBlockToProcess_offset gEx 3 3 1 3 1 (by decide) (by decide)
      (by decide) (by decide) (by decide) (by decide) (by decide)).2.2.2⟩

theorem updateBlockToProcess_no_winLock (g : GTMatrix) (dst' q : Nat) (op : MPIOp)
    (rs rn cs cn src ld : Int) :
    Event.winLock q ∉ (GTM_updateBlockToProcess g dst' op rs rn cs cn src ld).2 := by
  rcases updateBlockToProcess_cases g dst' op rs rn cs cn src ld with hc | hc <;>
    rw [hc] <;> simp

/-- C7: in non-blocking mode, for each destination sub-update
(`nbUpdateStep`, the `NONBLOCKING_ACCESS` branch of `GTM_updateBlock`): the
destination's epoch is acquired exactly when that destination's outstanding
counter is zero; below the configured maximum both that destination's
counter and the global counter are incremented by one; and when the global
counter reaches the configured maximum, the full flush `GTM_waitNB` runs,
resetting every per-destination counter and the global counter to zero and
leaving no epoch held open. -/
theorem nbUpdateStep_policy (st : GTMatrix) (dst : Nat) (op : MPIOp)
    (rs rn cs cn src ld : Int) :
    ((Event.winLock dst ∈ (nbUpdateStep st dst op rs rn cs cn src ld).2.2) ↔
      st.nb_op_proc_cnt dst = 0) ∧
    (st.nb_op_cnt + 1 < st.max_nb_acc →
      (nbUpdateStep st dst op rs rn cs cn src ld).2.1.nb_op_proc_cnt dst =
        st.nb_op_proc_cnt dst + 1 ∧
      (nbUpdateStep st dst op rs rn cs cn src ld).2.1.nb_op_cnt =
        st.nb_op_cnt + 1) ∧
    (st.nb_op_cnt + 1 ≥ st.max_nb_acc →
      (∀ q, (nbUpdateStep st dst op rs rn cs cn src ld).2.1.nb_op_proc_cnt q = 0) ∧
      (nbUpdateStep st dst op rs rn cs cn src ld).2.1.nb_op_cnt = 0 ∧
      (∀ q, (nbUpdateStep st dst op rs rn cs cn src ld).2.1.held q = false) ∧
      Event.flushNB ∈ (nbUpdateStep st dst op rs rn cs cn src ld).2.2) := by
  by_cases hz : st.nb_op_proc_cnt dst = 0 <;>
    by_cases hfl : st.nb_op_cnt + 1 ≥ st.max_nb_acc
  · refine ⟨?_, fun hlt => absurd hfl (by omega), fun _ => ⟨fun q => ?_, ?_, fun q => ?_, ?_⟩⟩ <;>
      simp [nbUpdateStep, GTM_waitNB, hz, hfl]
  · refine ⟨?_, fun _ => ⟨?_, ?_⟩, fun hge => absurd hge hfl⟩ <;>
      simp [nbUpdateStep, GTM_waitNB, hz, hfl]
  · refine ⟨?_, fun hlt => absurd hfl (by omega), fun _ => ⟨fun q => ?_, ?_, fun q => ?_, ?_⟩⟩ <;>
      simp [nbUpdateStep, GTM_waitNB, hz, hfl, updateBlockToProcess_no_winLock]
  · refine ⟨?_, fun _ => ⟨?_, ?_⟩, fun hge => absurd hge hfl⟩ <;>
      simp [nbUpdateStep, GTM_waitNB, hz, hfl, updateBlockToProcess_no_winLock]

/-- Witness for `nbUpdateStep_policy`: lock acquisition and increment on the
idle example, and the threshold flush on a state one operation short of the
maximum. -/
theorem nbUpdateStep_policy_witness :
    (Event.winLock 0 ∈ (nbUpdateStep gEx 0 .MPI_SUM 0 2 0 2 1000 2).2.2) ∧
    (nbUpdateStep gEx 0 .MPI_SUM 0 2 0 2 1000 2).2.1.nb_op_cnt = gEx.nb_op_cnt + 1 ∧
    (nbUpdateStep { gEx with nb_op_cnt := 7 } 0 .MPI_SUM 0 2 0 2 1000 2).2.1.nb_op_cnt = 0 ∧
    (nbUpdateStep { gEx with nb_op_cnt := 7 } 0 .MPI_SUM 0 2 0 2 1000 2).2.1.held 1 = false :=
  ⟨(nbUpdateStep_policy gEx 0 .MPI_SUM 0 2 0 2 1000 2).1.mpr rfl,
   ((nbUpdateStep_policy gEx 0 .MPI_SUM 0 2 0 2 1000 2).2.1 (by decide)).2,
   (((nbUpdateStep_policy { gEx with nb_op_cnt := 7 } 0 .MPI_SUM 0 2 0 2 1000 2).2.2
      (by decide)).2.1),
   ((((nbUpdateStep_policy { gEx with nb_op_cnt := 7 } 0 .MPI_SUM 0 2 0 2 1000 2).2.2
      (by decide)).2.2.1) 1)⟩

/-- C8: when every queued request passes the per-destination sanity check,
`GTM_execBatchUpdate` succeeds and its event trace is exactly the
concatenation, over destinations in round-robin order starting at the
caller's own rank and wrapping around the group, of: nothing for an empty
queue, and otherwise lock, the queued requests replayed as accumulates in
enqueue order, then unlock. -/
theorem GTM_execBatchUpdate_order (st : GTMatrix)
    (hput : st.in_batch_put = true) (hacc : st.in_batch_acc = true)
    (h : ∀ dst ∈ roundRobinRanks st.my_rank st.comm_size, ∀ q ∈ st.req_vec dst,
      (GTM_updateBlockToProcess st dst q.op q.row_start q.row_num q.col_start
        q.col_num q.src_buf q.src_buf_ld).1 = GTM_SUCCESS) :
    (GTM_execBatchUpdate st).1 = GTM_SUCCESS ∧
    (GTM_execBatchUpdate st).2.2 =
      (roundRobinRanks st.my_rank st.comm_size).flatMap (fun dst =>
        if st.req_vec dst = [] then []
        else Event.winLock dst :: (st.req_vec dst).map (accumEvent st dst) ++
          [Event.winUnlock dst]) := by
  have hexec : GTM_execBatchUpdate st =
      execRanks st (roundRobinRanks st.my_rank st.comm_size) := by
    unfold GTM_execBatchUpdate
    rw [hput, hacc]
    rfl
  rw [hexec]
  exact execRanks_success _ st (roundRobinRanks_nodup _ _) h

/-- Witness for `GTM_execBatchUpdate_order` at `gGood` (one destination, one
valid queued request). -/
theorem GTM_execBatchUpdate_order_witness :
    (GTM_execBatchUpdate gGood).1 = GTM_SUCCESS :=
  (GTM_execBatchUpdate_order gGood rfl rfl (by decide)).1

/-- C9: the batch epoch state machine. `GTM_startBatchUpdate` fails with the
matching already-batched code (get checked first, then put, then acc) when
any batch is active, and on success clears every destination's queue and
sets the put-active and accumulate-active flags together;
`GTM_execBatchUpdate` and `GTM_stopBatchUpdate` fail with the matching
no-batched code when no batch is active; a successful `GTM_stopBatchUpdate`
only clears the two flags — queues are untouched and nothing is flushed, so
stopping with non-empty queues leaves those deferred requests unapplied. -/
theorem batch_epoch_state_machine (st : GTMatrix) :
    (st.in_batch_get = true →
      GTM_startBatchUpdate (some st) = (GTM_IN_BATCHED_GET, some st)) ∧
    (st.in_batch_get = false → st.in_batch_put = true →
      GTM_startBatchUpdate (some st) = (GTM_IN_BATCHED_PUT, some st)) ∧
    (st.in_batch_get = false → st.in_batch_put = false → st.in_batch_acc = true →
      GTM_startBatchUpdate (some st) = (GTM_IN_BATCHED_ACC, some st)) ∧
    (st.in_batch_get = false → st.in_batch_put = false → st.in_batch_acc = false →
      (GTM_startBatchUpdate (some st)).1 = GTM_SUCCESS ∧
      ∀ st', (GTM_startBatchUpdate (some st)).2 = some st' →
        (∀ q, q < st.comm_size → st'.req_vec q = []) ∧
        st'.in_batch_put = true ∧ st'.in_batch_acc = true) ∧
    (st.in_batch_put = false →
      GTM_execBatchUpdate st = (GTM_NO_BATCHED_PUT, st, [])) ∧
    (st.in_batch_put = true → st.in_batch_acc = false →
      GTM_execBatchUpdate st = (GTM_NO_BATCHED_ACC, st, [])) ∧
    (st.in_batch_put = false →
      GTM_stopBatchUpdate (some st) = (GTM_NO_BATCHED_PUT, some st)) ∧
    (st.in_batch_put = true → st.in_batch_acc = false →
      GTM_stopBatchUpdate (some st) = (GTM_NO_BATCHED_ACC, some st)) ∧
    (st.in_batch_put = true → st.in_batch_acc = true →
      GTM_stopBatchUpdate (some st) =
        (GTM_SUCCESS, some { st with in_batch_put := false, in_batch_acc := false })) := by
  refine ⟨?_, ?_, ?_, ?_, ?_, ?_, ?_, ?_, ?_⟩
  · intro h
    simp [GTM_startBatchUpdate, h]
  · intro hg hp
    simp [GTM_startBatchUpdate, hg, hp]
  · intro hg hp ha
    simp [GTM_startBatchUpdate, hg, hp, ha]
  · intro hg hp ha
    constructor
    · simp [GTM_startBatchUpdate, hg, hp, ha]
    · intro st' heq
      simp only [GTM_startBatchUpdate, hg, hp, ha, Bool.false_eq_true, if_neg,
        if_false, Option.some.injEq] at heq
      subst heq
      exact ⟨fun q hq => by simp [hq], rfl, rfl⟩
  · intro hp
    simp [GTM_execBatchUpdate, hp]
  · intro hp ha
    simp [GTM_execBatchUpdate, hp, ha]
  · intro hp
    simp [GTM_stopBatchUpdate, hp]
  · intro hp ha
    simp [GTM_stopBatchUpdate, hp, ha]
  · intro hp ha
    simp [GTM_stopBatchUpdate, hp, ha]

/-- Witness for `batch_epoch_state_machine`: starting inside an active epoch
fails with the already-batched-put code; a successful stop from the active
example clears both flags. -/
theorem batch_epoch_state_machine_witness :
    GTM_startBatchUpdate (some gBad) = (GTM_IN_BATCHED_PUT, some gBad) ∧
    GTM_stopBatchUpdate (some gBad) =
      (GTM_SUCCESS, some { gBad with in_batch_put := false, in_batch_acc := false }) ∧
    GTM_execBatchUpdate gEx = (GTM_NO_BATCHED_PUT, gEx, []) :=
  ⟨(batch_epoch_state_machine gBad).2.1 rfl rfl,
   (batch_epoch_state_machine gBad).2.2.2.2.2.2.2.2 rfl rfl,
   (batch_epoch_state_machine gEx).2.2.2.2.1 rfl⟩
